import Mathlib

/-!
Verification of the ocspd repository (github.com/tbroyer/ocspd) against its
natural-language specification.

The Go sources are shallowly embedded:

* `time.Time` and `time.Duration` are modelled as `Int`, counting nanoseconds
  since Go's zero time (January 1, year 1).  The zero `time.Time` is the
  integer `0`, so `t.IsZero()` becomes `t = 0`, `a.Before b` becomes `a < b`
  and `a.After b` becomes `a > b`.  Go's `int64` duration arithmetic that can
  overflow is modelled with an explicit two's-complement wrap (`wrap64`).
* Go strings are modelled as `List Char` (`GoStr`); the repository only ever
  manipulates them bytewise over ASCII data.
* External library calls (`http.ParseTime`, `mime.ParseMediaType`,
  `ocsp.ParseResponse`, `ocsp.CreateRequest`, `url.Parse`, `rand.Int63n`, the
  HTTP client) are taken as explicit function parameters, so every theorem
  quantifies over their behaviour; `rand.Int63n` returns `Option Int` with
  `none` modelling its documented panic on a non-positive bound.
* A Go `panic` is modelled as the `none` value of an `Option` result.
-/

/-- Go strings, restricted to the ASCII data the repository manipulates. -/
abbrev GoStr := List Char

/-- Convenience injection of a Lean string literal into `GoStr`. -/
def str (s : String) : GoStr := s.data

/-- Two's-complement wrap of an integer into the `int64` range, modelling Go's
silent overflow of `int64` arithmetic. -/
def wrap64 (x : Int) : Int := (x + 2 ^ 63) % 2 ^ 64 - 2 ^ 63

/-- Largest `int64` value (`math.MaxInt64`). -/
def maxInt64 : Int := 2 ^ 63 - 1

/-- Nanoseconds in one second (`time.Second`). -/
def nsSecond : Int := 1000000000

/-- Nanoseconds in one hour (`time.Hour`). -/
def nsHour : Int := 3600000000000

/-- Go's `time.Time.Truncate`: round `t` down to a multiple of `d` since the
zero time; `d ≤ 0` leaves `t` unchanged. -/
def goTruncate (t d : Int) : Int := if d ≤ 0 then t else t - t % d

/-- `unicode.IsSpace` restricted to the code points Go treats as white space
in Latin-1 plus the Unicode `White_Space` code points. -/
def goIsSpace (c : Char) : Bool :=
  c = ' ' || c = '\t' || c = '\n' || (c = Char.ofNat 11) || (c = Char.ofNat 12) ||
  c = '\r' || (c = Char.ofNat 0x85) || (c = Char.ofNat 0xA0) ||
  (c = Char.ofNat 0x1680) || (0x2000 ≤ c.toNat && c.toNat ≤ 0x200A) ||
  (c = Char.ofNat 0x2028) || (c = Char.ofNat 0x2029) || (c = Char.ofNat 0x202F) ||
  (c = Char.ofNat 0x205F) || (c = Char.ofNat 0x3000)

/-- Per-character lower casing as used by `strings.ToLower`; the repository
only compares ASCII directive names, so only ASCII letters are mapped. -/
def goToLowerChar (c : Char) : Char :=
  if 'A' ≤ c && c ≤ 'Z' then Char.ofNat (c.toNat + 32) else c

/-- `strings.ToLower` (ASCII fragment). -/
def goToLower (s : GoStr) : GoStr := s.map goToLowerChar

/-- `strings.EqualFold` (ASCII fragment): case-insensitive equality. -/
def goEqualFold (a b : GoStr) : Bool := goToLower a == goToLower b

/-- `strings.TrimLeftFunc s unicode.IsSpace`. -/
def goTrimLeft (s : GoStr) : GoStr := s.dropWhile goIsSpace

/-- `strings.TrimFunc s unicode.IsSpace` (trim both ends). -/
def goTrim (s : GoStr) : GoStr := ((s.dropWhile goIsSpace).reverse.dropWhile goIsSpace).reverse

/-- The fields of `golang.org/x/crypto/ocsp.Response` that the repository
reads: the validity window timestamps. -/
structure OcspResponse where
  thisUpdate : Int
  nextUpdate : Int
deriving DecidableEq, Repr

/-- The certificate fields the repository reads: the OCSP-server extension
entries (`OCSPServer`) and `NotAfter`. -/
structure Certificate where
  ocspServer : List GoStr
  notAfter : Int
deriving DecidableEq, Repr

/-- `ocspd.Response`: a fetched OCSP response plus its HTTP caching metadata
(fetch.go).  `OCSPResponse` is a nil-able pointer, hence `Option`. -/
structure Response where
  ocspResponse : Option OcspResponse
  rawOCSPResponse : List Nat
  maxAge : Int
  etag : GoStr
  lastModified : Int
deriving DecidableEq, Repr

/-- `ocspd.Request` (fetch.go): the prepared OCSP query.  A `none` body means
the GET form, a `some` body the POST form.  The issuer certificate is carried
along for response verification. -/
structure Request where
  url : GoStr
  body : Option (List Nat)
  notAfter : Int
  issuer : Certificate
deriving DecidableEq, Repr

/-- `ocspd.ocspStatus`: one monitored certificate inside the Updater. -/
structure OcspStatus where
  request : Request
  response : Option Response
  nextUpdate : Int
  tags : List GoStr
deriving DecidableEq, Repr

/-- `ocspd.Event` delivered to the Updater's subscriber. -/
structure Event where
  response : Option OcspResponse
  rawResponse : List Nat
  tags : List GoStr
deriving DecidableEq, Repr

/-- `ocspd.requestEqual` (part_000): two requests are equivalent iff their
URLs match and their bodies are both nil or byte-equal (`bytes.Equal` treats
nil as empty). -/
def requestEqual (a b : Request) : Bool :=
  a.url == b.url && (a.body.isNone == b.body.isNone) && (a.body.getD [] == b.body.getD [])

/-- `ocspd.needsRefresh` (part_002; `update.go`'s `NeedsRefresh` is the same
code with `now` read from the wall clock). -/
def needsRefresh (resp : OcspResponse) (mtime : Int) (period : Int) (now : Int) : Bool :=
  if resp.nextUpdate = 0 || resp.nextUpdate < now then true
  else if now + period > resp.nextUpdate then true
  else
    let h := resp.thisUpdate + Int.tdiv (resp.nextUpdate - resp.thisUpdate) 2
    if h > now then false
    else if h > mtime then true
    else false

/-- Contract of `math/rand.Int63n` as the scheduler relies on it: it panics
(modelled as `none`) on a non-positive bound and otherwise yields a value in
`[0, n)`. -/
def Int63nContract (f : Int → Option Int) : Prop :=
  (∀ n : Int, n ≤ 0 → f n = none) ∧
  (∀ n : Int, 0 < n → ∃ v, 0 ≤ v ∧ v < n ∧ f n = some v)

/-- `ocspd.defaultRand` (part_000): the default jitter simply forwards the
duration to `rand.Int63n`. -/
def defaultRand (int63n : Int → Option Int) (d : Int) : Option Int := int63n d

/-- `(*Updater).updateStatus` (part_000 lines 289-316): store the new response
(if any) into the status and recompute its `NextUpdate`.  `tick` is
`u.TickRound`, `rand` is `u.rand`, `now` is `u.fetcher.now()`.  The result is
`none` when the jitter call panics. -/
def updateStatus (tick : Int) (rand : Int → Option Int) (now : Int)
    (s : OcspStatus) (r : Option Response) : Option OcspStatus :=
  let resp : Option OcspResponse := match r with | some rr => rr.ocspResponse | none => none
  let maxAge : Int := match r with | some rr => rr.maxAge | none => 0
  let s1 : OcspStatus := match r with | some rr => { s with response := some rr } | none => s
  if maxAge != 0 && (match resp with | none => true | some o => decide (maxAge < o.nextUpdate)) then
    some { s1 with nextUpdate := maxAge }
  else
    match resp with
    | some o =>
      if o.nextUpdate < now then
        some { s1 with nextUpdate := 0 }
      else
        let earliest := now + tick
        let h := Int.tdiv (o.nextUpdate - earliest) 2
        (rand h).map (fun j => { s1 with nextUpdate := goTruncate (earliest + (h + j)) tick })
    | none =>
      if s1.response = none then some { s1 with nextUpdate := 0 } else some s1

/-- The five-rule scheduling list exactly as the specification states it
(spec section 4.5), written rule by rule: store the response, then take the
first matching rule to produce the new `nextUpdate`. -/
def specUpdateStatus (tick : Int) (rand : Int → Option Int) (now : Int)
    (s : OcspStatus) (r : Option Response) : Option OcspStatus :=
  let stored : OcspStatus := match r with | some rr => { s with response := some rr } | none => s
  match r with
  | none =>
    -- rules 1-3 mention `r`; with no new response only rules 4 and 5 can match
    if stored.response = none then some { stored with nextUpdate := 0 } else some stored
  | some rr =>
    match rr.ocspResponse with
    | none =>
      if rr.maxAge ≠ 0 then some { stored with nextUpdate := rr.maxAge }     -- rule 1
      else if stored.response = none then some { stored with nextUpdate := 0 } -- rule 4
      else some stored                                                        -- rule 5
    | some o =>
      if rr.maxAge ≠ 0 ∧ rr.maxAge < o.nextUpdate then
        some { stored with nextUpdate := rr.maxAge }                          -- rule 1
      else if o.nextUpdate < now then
        some { stored with nextUpdate := 0 }                                  -- rule 2
      else                                                                    -- rule 3
        let earliest := now + tick
        let halfRemaining := Int.tdiv (o.nextUpdate - earliest) 2
        (rand halfRemaining).map
          (fun j => { stored with nextUpdate := goTruncate (earliest + (halfRemaining + j)) tick })

theorem updateStatus_eq_spec (tick : Int) (rand : Int → Option Int) (now : Int)
    (s : OcspStatus) (r : Option Response) :
    updateStatus tick rand now s r = specUpdateStatus tick rand now s r := by
  cases r with
  | none =>
    simp [updateStatus, specUpdateStatus]
  | some rr =>
    cases hocsp : rr.ocspResponse with
    | none =>
      by_cases hma : rr.maxAge = 0
      · simp [updateStatus, specUpdateStatus, hocsp, hma]
      · simp [updateStatus, specUpdateStatus, hocsp, hma]
    | some o =>
      by_cases hma : rr.maxAge = 0
      · simp [updateStatus, specUpdateStatus, hocsp, hma]
      · by_cases hlt : rr.maxAge < o.nextUpdate
        · simp [updateStatus, specUpdateStatus, hocsp, hma, hlt]
        · simp [updateStatus, specUpdateStatus, hocsp, hma, hlt]

/-- Outcome of one `FetchR` call inside the sweep: `error` is a fetch error,
`ok none` a 304 Not Modified, `ok (some r)` a fresh response. -/
abbrev FetchResult := Except Unit (Option Response)

/-- The loop body of `(*Updater).UpdateNow` (part_000 lines 253-287) over the
schedule-ordered status list.  Entries are `(id, status)` pairs, the `id`
standing for the Go pointer identity.  The loop stops at the first status
whose `NextUpdate` is in the future; a fetch error defers the status by
`tick`; otherwise `updateStatus` runs and a fresh response is emitted as an
event.  `none` models a panic escaping from the jitter call. -/
def sweep (tick : Int) (rand : Int → Option Int) (now : Int)
    (fetch : OcspStatus → FetchResult) :
    List (Nat × OcspStatus) → Option (List (Nat × OcspStatus) × List Event)
  | [] => some ([], [])
  | (i, s) :: rest =>
    if s.nextUpdate > now then some ((i, s) :: rest, [])
    else
      match fetch s with
      | .error _ =>
        (sweep tick rand now fetch rest).map
          (fun p => ((i, { s with nextUpdate := s.nextUpdate + tick }) :: p.1, p.2))
      | .ok r =>
        match updateStatus tick rand now s r with
        | none => none
        | some s1 =>
          let evs : List Event :=
            match r with
            | some rr => [{ response := rr.ocspResponse, rawResponse := rr.rawOCSPResponse,
                            tags := s1.tags }]
            | none => []
          (sweep tick rand now fetch rest).map (fun p => ((i, s1) :: p.1, evs ++ p.2))

/-- The Updater's guarded state (part_000): the schedule-ordered statuses and
the tag index.  Go's `*ocspStatus` pointers are modelled by unique `Nat` ids
(`nextId` is the allocation counter); `tagToStatus` maps a tag to the id of
its status.  `started` models `u.timer != nil`. -/
structure UpdaterState where
  statuses : List (Nat × OcspStatus)
  tagToStatus : List (GoStr × Nat)
  started : Bool
  nextId : Nat
deriving DecidableEq, Repr

/-- Go map read `u.tagToStatus[tag]`. -/
def mapLookup (k : GoStr) : List (GoStr × Nat) → Option Nat
  | [] => none
  | (k1, v) :: rest => if k1 == k then some v else mapLookup k rest

/-- Go map write `u.tagToStatus[tag] = s`. -/
def mapInsert (k : GoStr) (v : Nat) : List (GoStr × Nat) → List (GoStr × Nat)
  | [] => [(k, v)]
  | (k1, v1) :: rest => if k1 == k then (k, v) :: rest else (k1, v1) :: mapInsert k v rest

/-- Go map delete `delete(u.tagToStatus, tag)`. -/
def mapDelete (k : GoStr) (l : List (GoStr × Nat)) : List (GoStr × Nat) :=
  l.filter (fun p => ¬ p.1 == k)

/-- Dereference a status id (reading through the pointer held by the index):
the first list entry holding the object with id `i`. -/
def getById (i : Nat) : List (Nat × OcspStatus) → Option OcspStatus
  | [] => none
  | (j, s) :: rest => if j == i then some s else getById i rest

/-- Mutation through a status pointer: every list entry holding the object
with id `i` (by construction at most one) now shows the new value. -/
def setById (i : Nat) (s : OcspStatus) (l : List (Nat × OcspStatus)) :
    List (Nat × OcspStatus) :=
  l.map (fun p => if p.1 == i then (i, s) else p)

/-- Removal of the first list entry whose pointer (id) is `i`, as the `Remove`
loop does with `u.statuses`. -/
def eraseById (i : Nat) : List (Nat × OcspStatus) → List (Nat × OcspStatus)
  | [] => []
  | (j, s) :: rest => if j == i then rest else (j, s) :: eraseById i rest

/-- The lookup-by-OCSP-request loop of `AddOrUpdate`: the first status whose
request is equivalent to `req`. -/
def findEquiv (req : Request) : List (Nat × OcspStatus) → Option (Nat × OcspStatus)
  | [] => none
  | (i, s) :: rest => if requestEqual req s.request then some (i, s) else findEquiv req rest

/-- Removal of the first occurrence of `tag` from a status's tag list (the
`Remove` loop over `s.Tags` breaks after the first hit). -/
def removeFirstTag (tag : GoStr) : List GoStr → List GoStr
  | [] => []
  | t :: rest => if t == tag then rest else t :: removeFirstTag tag rest

/-- Lexicographic byte order on Go strings, the order `sort.Strings` uses. -/
def goStrLE (a b : GoStr) : Bool :=
  match a, b with
  | [], _ => true
  | _ :: _, [] => false
  | c :: a1, d :: b1 => if c = d then goStrLE a1 b1 else decide (c < d)

/-- `sort.Strings s.Tags`. -/
def sortTags (l : List GoStr) : List GoStr := l.mergeSort goStrLE

/-- `sort.Sort u.statuses`: reorder the statuses by ascending `NextUpdate`
(`sort.Sort` guarantees only the ordering, modelled with a merge sort). -/
def sortStatuses (l : List (Nat × OcspStatus)) : List (Nat × OcspStatus) :=
  l.mergeSort (fun a b => decide (a.2.nextUpdate ≤ b.2.nextUpdate))

/-- `(*Updater).resetTimer`: a no-op when not started; otherwise it sorts the
statuses and re-arms (or stops) the timer.  Only the sort is visible in this
state model. -/
def resetTimerS (σ : UpdaterState) : UpdaterState :=
  if σ.started then
    if σ.statuses = [] then σ else { σ with statuses := sortStatuses σ.statuses }
  else σ

/-- `(*Updater).AddOrUpdate` (part_000 lines 104-154).  The result is `none`
on a panic (empty tag, or a jitter panic inside `updateStatus`); otherwise
`some (σ, events, dup)` where `dup` reports `ErrDuplicateTag` (in which case
the state is returned unchanged).  When a tag is re-registered, the indexed id
always refers to a live status whenever the state satisfies the Updater's
invariants; the dead `getById = none` branch leaves the state unchanged,
mirroring a mutation of an unreferenced object. -/
def addOrUpdate (tick : Int) (rand : Int → Option Int) (now : Int)
    (tag : GoStr) (req : Request) (resp : Option Response) (σ : UpdaterState) :
    Option (UpdaterState × List Event × Bool) :=
  if tag = [] then none
  else
    match mapLookup tag σ.tagToStatus with
    | some i =>
      match getById i σ.statuses with
      | none => some (σ, [], false)
      | some s =>
        if requestEqual req s.request = false then some (σ, [], true)
        else
          match updateStatus tick rand now s resp with
          | none => none
          | some s1 =>
            some (resetTimerS { σ with statuses := setById i s1 σ.statuses }, [], false)
    | none =>
      match findEquiv req σ.statuses with
      | some (i, s) =>
        match updateStatus tick rand now { s with tags := sortTags (s.tags ++ [tag]) } resp with
        | none => none
        | some s1 =>
          some (resetTimerS { σ with statuses := setById i s1 σ.statuses,
                                     tagToStatus := mapInsert tag i σ.tagToStatus },
                match resp, s1.response with
                | none, some pr =>
                  if σ.started then
                    [{ response := pr.ocspResponse, rawResponse := pr.rawOCSPResponse,
                       tags := s1.tags }]
                  else []
                | _, _ => [],
                false)
      | none =>
        match updateStatus tick rand now
            { request := req, response := none, nextUpdate := 0, tags := [tag] } resp with
        | none => none
        | some s1 =>
          some (resetTimerS { σ with statuses := σ.statuses ++ [(σ.nextId, s1)],
                                     tagToStatus := mapInsert tag σ.nextId σ.tagToStatus,
                                     nextId := σ.nextId + 1 }, [], false)

/-- `(*Updater).Remove` (part_000 lines 164-188). -/
def removeOp (tag : GoStr) (σ : UpdaterState) : UpdaterState :=
  match mapLookup tag σ.tagToStatus with
  | none => σ
  | some i =>
    let index1 := mapDelete tag σ.tagToStatus
    let statuses1 :=
      match getById i σ.statuses with
      | none => σ.statuses
      | some s =>
        let tags1 := removeFirstTag tag s.tags
        if tags1 = [] then eraseById i σ.statuses
        else setById i { s with tags := tags1 } σ.statuses
    resetTimerS { σ with tagToStatus := index1, statuses := statuses1 }

/-- `(*Updater).UpdateNow`: run the sweep, then reset the timer. -/
def updateNowOp (tick : Int) (rand : Int → Option Int) (now : Int)
    (fetch : OcspStatus → FetchResult) (σ : UpdaterState) :
    Option (UpdaterState × List Event) :=
  (sweep tick rand now fetch σ.statuses).map
    (fun p => (resetTimerS { σ with statuses := p.1 }, p.2))

/-- `(*Updater).Start` up to and including `startTimer` (the timer loop itself
only re-dispatches `UpdateNow`): a no-op if already started, otherwise arm the
timer and reset it. -/
def startOp (σ : UpdaterState) : UpdaterState :=
  if σ.started then σ else resetTimerS { σ with started := true }

/-- `(*Updater).Stop`: disarm the timer. -/
def stopOp (σ : UpdaterState) : UpdaterState :=
  if σ.started then { σ with started := false } else σ

/-- `ocspd.NewUpdater`: the initial Updater state. -/
def updaterInit : UpdaterState :=
  { statuses := [], tagToStatus := [], started := false, nextId := 0 }

/-- States reachable from `NewUpdater` by completed public operations; the
external collaborators (clock, jitter, HTTP fetches) are quantified at every
step. -/
inductive Reachable : UpdaterState → Prop where
  | init : Reachable updaterInit
  | add (σ σ1 : UpdaterState) (tick : Int) (rand : Int → Option Int) (now : Int)
      (tag : GoStr) (req : Request) (resp : Option Response)
      (evs : List Event) (dup : Bool)
      (h : Reachable σ) (hstep : addOrUpdate tick rand now tag req resp σ = some (σ1, evs, dup)) :
      Reachable σ1
  | remove (σ : UpdaterState) (tag : GoStr) (h : Reachable σ) : Reachable (removeOp tag σ)
  | updateNow (σ σ1 : UpdaterState) (tick : Int) (rand : Int → Option Int) (now : Int)
      (fetch : OcspStatus → FetchResult) (evs : List Event)
      (h : Reachable σ) (hstep : updateNowOp tick rand now fetch σ = some (σ1, evs)) :
      Reachable σ1
  | start (σ : UpdaterState) (h : Reachable σ) : Reachable (startOp σ)
  | stop (σ : UpdaterState) (h : Reachable σ) : Reachable (stopOp σ)


/-- The Updater's internal invariants (spec section 8, plus the bookkeeping
facts about pointer ids that make the pointer model meaningful). -/
structure UpdInv (σ : UpdaterState) : Prop where
  keysNodup : (σ.tagToStatus.map (fun q => q.1)).Nodup
  idsNodup : (σ.statuses.map (fun p => p.1)).Nodup
  idsLt : ∀ p ∈ σ.statuses, p.1 < σ.nextId
  tagSound : ∀ q ∈ σ.tagToStatus, ∃ s, (q.2, s) ∈ σ.statuses ∧ q.1 ∈ s.tags
  tagComplete : ∀ p ∈ σ.statuses, ∀ t ∈ p.2.tags, (t, p.1) ∈ σ.tagToStatus
  tagsNonempty : ∀ p ∈ σ.statuses, p.2.tags ≠ []
  tagsNodup : ∀ p ∈ σ.statuses, p.2.tags.Nodup
  reqUnique : σ.statuses.Pairwise (fun a b => requestEqual a.2.request b.2.request = false)

theorem requestEqual_true_iff (a b : Request) :
    requestEqual a b = true ↔
      (a.url = b.url ∧ a.body.isNone = b.body.isNone ∧ a.body.getD [] = b.body.getD []) := by
  simp [requestEqual, and_assoc]

theorem requestEqual_comm (a b : Request) : requestEqual a b = requestEqual b a := by
  by_cases h : requestEqual a b = true
  · have h2 := (requestEqual_true_iff a b).mp h
    have h3 : requestEqual b a = true :=
      (requestEqual_true_iff b a).mpr ⟨h2.1.symm, h2.2.1.symm, h2.2.2.symm⟩
    rw [h, h3]
  · by_cases h3 : requestEqual b a = true
    · have h4 := (requestEqual_true_iff b a).mp h3
      exact absurd ((requestEqual_true_iff a b).mpr ⟨h4.1.symm, h4.2.1.symm, h4.2.2.symm⟩) h
    · rw [Bool.eq_false_iff.mpr h, Bool.eq_false_iff.mpr h3]

theorem mapLookup_mem {k : GoStr} {v : Nat} {l : List (GoStr × Nat)}
    (h : mapLookup k l = some v) : (k, v) ∈ l := by
  induction l with
  | nil => simp [mapLookup] at h
  | cons q rest ih =>
    obtain ⟨k1, v1⟩ := q
    by_cases hk : k1 = k
    · subst hk
      simp [mapLookup] at h
      simp [h]
    · simp only [mapLookup, beq_iff_eq, hk, if_false] at h
      exact List.mem_cons_of_mem _ (ih h)

theorem mapLookup_none_iff {k : GoStr} {l : List (GoStr × Nat)} :
    mapLookup k l = none ↔ k ∉ l.map (fun q => q.1) := by
  induction l with
  | nil => simp [mapLookup]
  | cons q rest ih =>
    obtain ⟨k1, v1⟩ := q
    by_cases hk : k1 = k
    · subst hk
      simp [mapLookup]
    · simp [mapLookup, hk, ih, Ne.symm hk]

theorem keysNodup_pair_eq {k : GoStr} {a b : Nat} {l : List (GoStr × Nat)}
    (hnd : (l.map (fun q => q.1)).Nodup) (ha : (k, a) ∈ l) (hb : (k, b) ∈ l) : a = b := by
  induction l with
  | nil => simp at ha
  | cons q rest ih =>
    simp only [List.map_cons, List.nodup_cons] at hnd
    rcases List.mem_cons.mp ha with ha1 | ha1 <;> rcases List.mem_cons.mp hb with hb1 | hb1
    · rw [← hb1] at ha1
      exact (Prod.ext_iff.mp ha1).2
    · exfalso
      apply hnd.1
      rw [← (Prod.ext_iff.mp ha1).1]
      exact List.mem_map_of_mem (fun q => q.1) hb1
    · exfalso
      apply hnd.1
      rw [← (Prod.ext_iff.mp hb1).1]
      exact List.mem_map_of_mem (fun q => q.1) ha1
    · exact ih hnd.2 ha1 hb1

theorem idsNodup_pair_eq {i : Nat} {a b : OcspStatus} {l : List (Nat × OcspStatus)}
    (hnd : (l.map (fun p => p.1)).Nodup) (ha : (i, a) ∈ l) (hb : (i, b) ∈ l) : a = b := by
  induction l with
  | nil => simp at ha
  | cons q rest ih =>
    simp only [List.map_cons, List.nodup_cons] at hnd
    rcases List.mem_cons.mp ha with ha1 | ha1 <;> rcases List.mem_cons.mp hb with hb1 | hb1
    · rw [← hb1] at ha1
      exact (Prod.ext_iff.mp ha1).2
    · exfalso
      apply hnd.1
      rw [← (Prod.ext_iff.mp ha1).1]
      exact List.mem_map_of_mem (fun p => p.1) hb1
    · exfalso
      apply hnd.1
      rw [← (Prod.ext_iff.mp hb1).1]
      exact List.mem_map_of_mem (fun p => p.1) ha1
    · exact ih hnd.2 ha1 hb1

theorem mapInsert_of_not_mem {k : GoStr} {v : Nat} {l : List (GoStr × Nat)}
    (h : mapLookup k l = none) : mapInsert k v l = l ++ [(k, v)] := by
  induction l with
  | nil => simp [mapInsert]
  | cons q rest ih =>
    obtain ⟨k1, v1⟩ := q
    by_cases hk : k1 = k
    · subst hk; simp [mapLookup] at h
    · simp only [mapLookup, beq_iff_eq, hk, if_false] at h
      simp [mapInsert, hk, ih h]

theorem mem_mapDelete {k : GoStr} {q : GoStr × Nat} {l : List (GoStr × Nat)} :
    q ∈ mapDelete k l ↔ q ∈ l ∧ q.1 ≠ k := by
  simp [mapDelete, List.mem_filter]

theorem mapDelete_sublist (k : GoStr) (l : List (GoStr × Nat)) :
    List.Sublist (mapDelete k l) l :=
  List.filter_sublist _

theorem getById_of_mem {i : Nat} {s : OcspStatus} {l : List (Nat × OcspStatus)}
    (hnd : (l.map (fun p => p.1)).Nodup) (h : (i, s) ∈ l) : getById i l = some s := by
  induction l with
  | nil => simp at h
  | cons q rest ih =>
    obtain ⟨j, t⟩ := q
    simp only [List.map_cons, List.nodup_cons] at hnd
    rcases List.mem_cons.mp h with h1 | h1
    · injection h1 with h1a h1b
      subst h1a; subst h1b
      simp [getById]
    · by_cases hj : j = i
      · exfalso
        apply hnd.1
        rw [hj]
        exact List.mem_map_of_mem (fun p => p.1) h1
      · simp only [getById, beq_iff_eq, hj, if_false]
        exact ih hnd.2 h1

theorem getById_mem {i : Nat} {s : OcspStatus} {l : List (Nat × OcspStatus)}
    (h : getById i l = some s) : (i, s) ∈ l := by
  induction l with
  | nil => simp [getById] at h
  | cons q rest ih =>
    obtain ⟨j, t⟩ := q
    by_cases hj : j = i
    · subst hj
      simp [getById] at h
      simp [h]
    · simp only [getById, beq_iff_eq, hj, if_false] at h
      exact List.mem_cons_of_mem _ (ih h)

theorem setById_ids (i : Nat) (s : OcspStatus) (l : List (Nat × OcspStatus)) :
    (setById i s l).map (fun p => p.1) = l.map (fun p => p.1) := by
  simp only [setById, List.map_map]
  apply List.map_congr_left
  intro p _
  by_cases hp : p.1 = i
  · simp [hp]
  · simp [hp]

theorem mem_setById {i : Nat} {s1 : OcspStatus} {l : List (Nat × OcspStatus)}
    {j : Nat} {t : OcspStatus} :
    (j, t) ∈ setById i s1 l ↔
      ((j, t) ∈ l ∧ j ≠ i) ∨ (j = i ∧ t = s1 ∧ ∃ t0, (i, t0) ∈ l) := by
  constructor
  · intro h
    simp only [setById, List.mem_map] at h
    obtain ⟨p, hp, hfp⟩ := h
    by_cases hpi : p.1 = i
    · simp only [hpi, beq_self_eq_true, if_true] at hfp
      have h1 := (Prod.ext_iff.mp hfp).1
      have h2 := (Prod.ext_iff.mp hfp).2
      exact Or.inr ⟨h1.symm, h2.symm, p.2, by rw [← hpi]; exact hp⟩
    · simp only [beq_iff_eq, hpi, if_false] at hfp
      subst hfp
      exact Or.inl ⟨hp, hpi⟩
  · intro h
    rcases h with ⟨hmem, hne⟩ | ⟨hj, ht, t0, ht0⟩
    · simp only [setById, List.mem_map]
      refine ⟨(j, t), hmem, ?_⟩
      simp [hne]
    · subst hj; subst ht
      simp only [setById, List.mem_map]
      refine ⟨(j, t0), ht0, ?_⟩
      simp

theorem eraseById_sublist (i : Nat) (l : List (Nat × OcspStatus)) :
    List.Sublist (eraseById i l) l := by
  induction l with
  | nil => simp [eraseById]
  | cons q rest ih =>
    obtain ⟨j, t⟩ := q
    by_cases hj : j = i
    · simp only [eraseById, hj, beq_self_eq_true, if_true]
      exact List.sublist_cons_self _ _
    · simp only [eraseById, beq_iff_eq, hj, if_false]
      exact ih.cons₂ _

theorem mem_eraseById_of_ne {i j : Nat} {t : OcspStatus} {l : List (Nat × OcspStatus)}
    (hne : j ≠ i) (h : (j, t) ∈ l) : (j, t) ∈ eraseById i l := by
  induction l with
  | nil => simp at h
  | cons q rest ih =>
    obtain ⟨j1, t1⟩ := q
    by_cases hj : j1 = i
    · subst hj
      simp only [eraseById, beq_self_eq_true, if_true]
      rcases List.mem_cons.mp h with h1 | h1
      · exact absurd (Prod.ext_iff.mp h1).1 hne
      · exact h1
    · simp only [eraseById, beq_iff_eq, hj, if_false]
      rcases List.mem_cons.mp h with h1 | h1
      · rw [h1]
        exact List.mem_cons_self _ _
      · exact List.mem_cons_of_mem _ (ih h1)

theorem not_mem_eraseById {i : Nat} {t : OcspStatus} {l : List (Nat × OcspStatus)}
    (hnd : (l.map (fun p => p.1)).Nodup) : (i, t) ∉ eraseById i l := by
  induction l with
  | nil => simp [eraseById]
  | cons q rest ih =>
    obtain ⟨j, t1⟩ := q
    simp only [List.map_cons, List.nodup_cons] at hnd
    by_cases hj : j = i
    · subst hj
      simp only [eraseById, beq_self_eq_true, if_true]
      intro hmem
      exact hnd.1 (List.mem_map_of_mem (fun p => p.1) hmem)
    · simp only [eraseById, beq_iff_eq, hj, if_false]
      intro hmem
      rcases List.mem_cons.mp hmem with h1 | h1
      · exact hj (Prod.ext_iff.mp h1).1.symm
      · exact ih hnd.2 h1

theorem findEquiv_some {req : Request} {l : List (Nat × OcspStatus)} {i : Nat} {s : OcspStatus}
    (h : findEquiv req l = some (i, s)) : (i, s) ∈ l ∧ requestEqual req s.request = true := by
  induction l with
  | nil => simp [findEquiv] at h
  | cons q rest ih =>
    obtain ⟨j, t⟩ := q
    by_cases he : requestEqual req t.request
    · simp only [findEquiv, he, if_true, Option.some.injEq] at h
      injection h with ha hb
      subst ha; subst hb
      exact ⟨List.mem_cons_self _ _, he⟩
    · simp only [findEquiv, he, if_false] at h
      have h2 := ih (by simpa using h)
      exact ⟨List.mem_cons_of_mem _ h2.1, h2.2⟩

theorem findEquiv_none {req : Request} {l : List (Nat × OcspStatus)}
    (h : findEquiv req l = none) : ∀ p ∈ l, requestEqual req p.2.request = false := by
  induction l with
  | nil => simp
  | cons q rest ih =>
    obtain ⟨j, t⟩ := q
    by_cases he : requestEqual req t.request
    · simp [findEquiv, he] at h
    · simp only [findEquiv, he, if_false] at h
      intro p hp
      rcases List.mem_cons.mp hp with h1 | h1
      · rw [h1]
        exact Bool.eq_false_iff.mpr he
      · exact ih h p h1

theorem removeFirstTag_sublist (tag : GoStr) (l : List GoStr) :
    List.Sublist (removeFirstTag tag l) l := by
  induction l with
  | nil => simp [removeFirstTag]
  | cons t rest ih =>
    by_cases ht : t = tag
    · simp only [removeFirstTag, ht, beq_self_eq_true, if_true]
      exact List.sublist_cons_self _ _
    · simp only [removeFirstTag, beq_iff_eq, ht, if_false]
      exact ih.cons₂ _

theorem mem_removeFirstTag_of_ne {tag x : GoStr} {l : List GoStr}
    (hne : x ≠ tag) (h : x ∈ l) : x ∈ removeFirstTag tag l := by
  induction l with
  | nil => simp at h
  | cons t rest ih =>
    by_cases ht : t = tag
    · subst ht
      simp only [removeFirstTag, beq_self_eq_true, if_true]
      rcases List.mem_cons.mp h with h1 | h1
      · exact absurd h1 hne
      · exact h1
    · simp only [removeFirstTag, beq_iff_eq, ht, if_false]
      rcases List.mem_cons.mp h with h1 | h1
      · rw [h1]; exact List.mem_cons_self _ _
      · exact List.mem_cons_of_mem _ (ih h1)

theorem not_mem_removeFirstTag {tag : GoStr} {l : List GoStr}
    (hnd : l.Nodup) : tag ∉ removeFirstTag tag l := by
  induction l with
  | nil => simp [removeFirstTag]
  | cons t rest ih =>
    simp only [List.nodup_cons] at hnd
    by_cases ht : t = tag
    · subst ht
      simp only [removeFirstTag, beq_self_eq_true, if_true]
      exact hnd.1
    · simp only [removeFirstTag, beq_iff_eq, ht, if_false]
      intro hmem
      rcases List.mem_cons.mp hmem with h1 | h1
      · exact ht h1.symm
      · exact ih hnd.2 h1

theorem removeFirstTag_eq_nil {tag : GoStr} {l : List GoStr}
    (h : removeFirstTag tag l = []) : l = [] ∨ l = [tag] := by
  cases l with
  | nil => exact Or.inl rfl
  | cons t rest =>
    by_cases ht : t = tag
    · subst ht
      simp only [removeFirstTag, beq_self_eq_true, if_true] at h
      exact Or.inr (by rw [h])
    · simp only [removeFirstTag, beq_iff_eq, ht, if_false] at h
      exact absurd h (by simp)

theorem sortTags_perm (l : List GoStr) : List.Perm (sortTags l) l :=
  List.mergeSort_perm l goStrLE

theorem mem_sortTags {x : GoStr} {l : List GoStr} : x ∈ sortTags l ↔ x ∈ l :=
  List.mem_mergeSort

theorem sortStatuses_perm (l : List (Nat × OcspStatus)) : List.Perm (sortStatuses l) l :=
  List.mergeSort_perm l _

theorem updateStatus_request_tags {tick : Int} {rand : Int → Option Int} {now : Int}
    {s s1 : OcspStatus} {r : Option Response}
    (h : updateStatus tick rand now s r = some s1) :
    s1.request = s.request ∧ s1.tags = s.tags := by
  cases r with
  | none =>
    simp only [updateStatus] at h
    split at h
    · simp only [Option.some.injEq] at h
      rw [← h]
      exact ⟨rfl, rfl⟩
    · split at h <;> simp only [Option.some.injEq] at h <;> rw [← h] <;> exact ⟨rfl, rfl⟩
  | some rr =>
    cases ho : rr.ocspResponse with
    | none =>
      simp only [updateStatus, ho] at h
      split at h
      · simp only [Option.some.injEq] at h
        rw [← h]
        exact ⟨rfl, rfl⟩
      · split at h <;> simp only [Option.some.injEq] at h <;> rw [← h] <;> exact ⟨rfl, rfl⟩
    | some o =>
      simp only [updateStatus, ho] at h
      split at h
      · simp only [Option.some.injEq] at h
        rw [← h]
        exact ⟨rfl, rfl⟩
      · split at h
        · simp only [Option.some.injEq] at h
          rw [← h]
          exact ⟨rfl, rfl⟩
        · rw [Option.map_eq_some'] at h
          obtain ⟨j, _, hj⟩ := h
          rw [← hj]
          exact ⟨rfl, rfl⟩

/-- Identity-relevant projection of a status entry: pointer id, request, tags. -/
def projRT (p : Nat × OcspStatus) : Nat × Request × List GoStr := (p.1, p.2.request, p.2.tags)

theorem sweep_projRT {tick : Int} {rand : Int → Option Int} {now : Int}
    {fetch : OcspStatus → FetchResult} {l l1 : List (Nat × OcspStatus)} {evs : List Event}
    (h : sweep tick rand now fetch l = some (l1, evs)) : l1.map projRT = l.map projRT := by
  induction l generalizing l1 evs with
  | nil =>
    simp only [sweep, Option.some.injEq] at h
    injection h with h1 h2
    rw [← h1]
  | cons p rest ih =>
    obtain ⟨i, s⟩ := p
    simp only [sweep] at h
    split at h
    · simp only [Option.some.injEq] at h
      injection h with h1 h2
      rw [← h1]
    · split at h
      · rw [Option.map_eq_some'] at h
        obtain ⟨⟨l2, evs2⟩, hs, heq⟩ := h
        injection heq with heq1 heq2
        rw [← heq1]
        simp only [List.map_cons]
        rw [ih hs]
        rfl
      · rename_i r hfetch
        split at h
        · exact absurd h (by simp)
        · rename_i s2 hupd
          rw [Option.map_eq_some'] at h
          obtain ⟨⟨l2, evs2⟩, hs, heq⟩ := h
          injection heq with heq1 heq2
          rw [← heq1]
          simp only [List.map_cons]
          rw [ih hs]
          have hrt := updateStatus_request_tags hupd
          simp only [projRT, hrt.1, hrt.2]

theorem reqUniqueSymm : Symmetric (fun a b : Nat × OcspStatus =>
    requestEqual a.2.request b.2.request = false) := by
  intro a b hab
  rw [requestEqual_comm]
  exact hab

theorem updInv_statuses_perm {σ : UpdaterState} {l1 : List (Nat × OcspStatus)}
    (hperm : List.Perm l1 σ.statuses) (hinv : UpdInv σ) :
    UpdInv { σ with statuses := l1 } := by
  refine ⟨hinv.keysNodup, ?_, ?_, ?_, ?_, ?_, ?_, ?_⟩
  · exact ((hperm.map (fun p => p.1)).nodup_iff).mpr hinv.idsNodup
  · intro p hp
    exact hinv.idsLt p (hperm.mem_iff.mp hp)
  · intro q hq
    obtain ⟨s, hs, ht⟩ := hinv.tagSound q hq
    exact ⟨s, hperm.mem_iff.mpr hs, ht⟩
  · intro p hp
    exact hinv.tagComplete p (hperm.mem_iff.mp hp)
  · intro p hp
    exact hinv.tagsNonempty p (hperm.mem_iff.mp hp)
  · intro p hp
    exact hinv.tagsNodup p (hperm.mem_iff.mp hp)
  · exact (hperm.pairwise_iff (fun h => reqUniqueSymm h)).mpr hinv.reqUnique

theorem updInv_resetTimerS {σ : UpdaterState} (hinv : UpdInv σ) : UpdInv (resetTimerS σ) := by
  unfold resetTimerS
  split
  · split
    · exact hinv
    · exact updInv_statuses_perm (sortStatuses_perm σ.statuses) hinv
  · exact hinv

theorem projRT_mem {l1 l2 : List (Nat × OcspStatus)}
    (hmap : l1.map projRT = l2.map projRT) {j : Nat} {t : OcspStatus} (h : (j, t) ∈ l1) :
    ∃ t0, (j, t0) ∈ l2 ∧ t0.request = t.request ∧ t0.tags = t.tags := by
  have h1 : projRT (j, t) ∈ l2.map projRT := by
    rw [← hmap]
    exact List.mem_map_of_mem projRT h
  obtain ⟨p, hp, hpe⟩ := List.mem_map.mp h1
  obtain ⟨j1, t1⟩ := p
  simp only [projRT, Prod.mk.injEq] at hpe
  exact ⟨t1, hpe.1 ▸ hp, hpe.2.1, hpe.2.2⟩

theorem updInv_statuses_projRT {σ : UpdaterState} {l1 : List (Nat × OcspStatus)}
    (hmap : l1.map projRT = σ.statuses.map projRT) (hinv : UpdInv σ) :
    UpdInv { σ with statuses := l1 } := by
  have hids : l1.map (fun p => p.1) = σ.statuses.map (fun p => p.1) := by
    have e1 : l1.map (fun p => p.1) = (l1.map projRT).map (fun q => q.1) := by
      rw [List.map_map]; rfl
    have e2 : σ.statuses.map (fun p => p.1) = (σ.statuses.map projRT).map (fun q => q.1) := by
      rw [List.map_map]; rfl
    rw [e1, e2, hmap]
  refine ⟨hinv.keysNodup, ?_, ?_, ?_, ?_, ?_, ?_, ?_⟩
  · rw [hids]; exact hinv.idsNodup
  · intro p hp
    obtain ⟨j, t⟩ := p
    obtain ⟨t0, ht0, _, _⟩ := projRT_mem hmap hp
    exact hinv.idsLt (j, t0) ht0
  · intro q hq
    obtain ⟨s, hs, ht⟩ := hinv.tagSound q hq
    obtain ⟨t0, ht0, _, htags⟩ := projRT_mem hmap.symm hs
    exact ⟨t0, ht0, by rw [htags]; exact ht⟩
  · intro p hp
    obtain ⟨j, t⟩ := p
    obtain ⟨t0, ht0, _, htags⟩ := projRT_mem hmap hp
    intro tg htg
    exact hinv.tagComplete (j, t0) ht0 tg (by rw [htags]; exact htg)
  · intro p hp
    obtain ⟨j, t⟩ := p
    obtain ⟨t0, ht0, _, htags⟩ := projRT_mem hmap hp
    intro hne
    exact hinv.tagsNonempty (j, t0) ht0 (by rw [htags, hne])
  · intro p hp
    obtain ⟨j, t⟩ := p
    obtain ⟨t0, ht0, _, htags⟩ := projRT_mem hmap hp
    have := hinv.tagsNodup (j, t0) ht0
    rw [htags] at this
    exact this
  · have e1 : List.Pairwise (fun a b : Nat × Request × List GoStr =>
        requestEqual a.2.1 b.2.1 = false) (l1.map projRT) := by
      rw [hmap]
      rw [List.pairwise_map]
      exact hinv.reqUnique
    rw [List.pairwise_map] at e1
    exact e1

theorem setById_reqUnique {σl : List (Nat × OcspStatus)} {i : Nat} {s s1 : OcspStatus}
    (hnd : (σl.map (fun p => p.1)).Nodup) (hs : (i, s) ∈ σl)
    (hreq : s1.request = s.request)
    (hpw : σl.Pairwise (fun a b => requestEqual a.2.request b.2.request = false)) :
    (setById i s1 σl).Pairwise (fun a b => requestEqual a.2.request b.2.request = false) := by
  have hfr : ∀ a ∈ σl,
      ((fun p : Nat × OcspStatus => if p.1 == i then (i, s1) else p) a).2.request
        = a.2.request := by
    intro a ha
    by_cases hai : a.1 = i
    · have : a = (i, a.2) := by rw [← hai]
      have ha2 : (i, a.2) ∈ σl := by rw [← this]; exact ha
      have := idsNodup_pair_eq hnd ha2 hs
      simp only [hai, beq_self_eq_true, if_true, hreq, this]
    · simp [hai]
  unfold setById
  rw [List.pairwise_map]
  refine List.Pairwise.imp_of_mem ?_ hpw
  intro a b ha hb hab
  rw [hfr a ha, hfr b hb]
  exact hab

theorem updInv_addTagIndexed {σ : UpdaterState} {tick : Int} {rand : Int → Option Int}
    {now : Int} {resp : Option Response} {i : Nat} {s s1 : OcspStatus}
    (hinv : UpdInv σ) (hget : getById i σ.statuses = some s)
    (hupd : updateStatus tick rand now s resp = some s1) :
    UpdInv { σ with statuses := setById i s1 σ.statuses } := by
  have hs : (i, s) ∈ σ.statuses := getById_mem hget
  have hrt := updateStatus_request_tags hupd
  refine ⟨hinv.keysNodup, ?_, ?_, ?_, ?_, ?_, ?_, ?_⟩
  · rw [setById_ids]
    exact hinv.idsNodup
  · intro p hp
    obtain ⟨j, t⟩ := p
    rcases mem_setById.mp hp with ⟨hmem, _⟩ | ⟨hj, _, _⟩
    · exact hinv.idsLt (j, t) hmem
    · have h2 := hinv.idsLt (i, s) hs
      simpa [hj] using h2
  · intro q hq
    obtain ⟨s2, hs2, ht2⟩ := hinv.tagSound q hq
    by_cases hqi : q.2 = i
    · refine ⟨s1, mem_setById.mpr (Or.inr ⟨hqi, rfl, s, hs⟩), ?_⟩
      rw [hrt.2]
      have : s2 = s := idsNodup_pair_eq hinv.idsNodup (hqi ▸ hs2) hs
      rw [← this]
      exact ht2
    · exact ⟨s2, mem_setById.mpr (Or.inl ⟨hs2, hqi⟩), ht2⟩
  · intro p hp
    obtain ⟨j, t⟩ := p
    rcases mem_setById.mp hp with ⟨hmem, _⟩ | ⟨hj, ht, _⟩
    · exact hinv.tagComplete (j, t) hmem
    · subst ht
      intro tg htg
      rw [hrt.2] at htg
      have h2 := hinv.tagComplete (i, s) hs tg htg
      simpa [hj] using h2
  · intro p hp
    obtain ⟨j, t⟩ := p
    rcases mem_setById.mp hp with ⟨hmem, _⟩ | ⟨hj, ht, _⟩
    · exact hinv.tagsNonempty (j, t) hmem
    · subst ht
      simp only [hrt.2]
      exact hinv.tagsNonempty (i, s) hs
  · intro p hp
    obtain ⟨j, t⟩ := p
    rcases mem_setById.mp hp with ⟨hmem, _⟩ | ⟨hj, ht, _⟩
    · exact hinv.tagsNodup (j, t) hmem
    · subst ht
      simp only [hrt.2]
      exact hinv.tagsNodup (i, s) hs
  · exact setById_reqUnique hinv.idsNodup hs hrt.1 hinv.reqUnique

theorem updInv_addTagEquivalent {σ : UpdaterState} {tick : Int} {rand : Int → Option Int}
    {now : Int} {tag : GoStr} {req : Request} {resp : Option Response}
    {i : Nat} {s s1 : OcspStatus}
    (hinv : UpdInv σ) (hlk : mapLookup tag σ.tagToStatus = none)
    (hfe : findEquiv req σ.statuses = some (i, s))
    (hupd : updateStatus tick rand now { s with tags := sortTags (s.tags ++ [tag]) } resp
              = some s1) :
    UpdInv { σ with statuses := setById i s1 σ.statuses,
                    tagToStatus := mapInsert tag i σ.tagToStatus } := by
  obtain ⟨hs, _⟩ := findEquiv_some hfe
  have hrt := updateStatus_request_tags hupd
  have hreq1 : s1.request = s.request := hrt.1
  have htags1 : s1.tags = sortTags (s.tags ++ [tag]) := hrt.2
  have htperm : List.Perm s1.tags (s.tags ++ [tag]) := htags1 ▸ sortTags_perm _
  have hkeys : tag ∉ σ.tagToStatus.map (fun q => q.1) := mapLookup_none_iff.mp hlk
  have hins : mapInsert tag i σ.tagToStatus = σ.tagToStatus ++ [(tag, i)] :=
    mapInsert_of_not_mem hlk
  have htagnotin : tag ∉ s.tags := by
    intro hmem
    exact hkeys (List.mem_map_of_mem (fun q => q.1) (hinv.tagComplete (i, s) hs tag hmem))
  refine ⟨?_, ?_, ?_, ?_, ?_, ?_, ?_, ?_⟩
  · rw [hins, List.map_append]
    simp only [List.map_cons, List.map_nil]
    rw [List.nodup_append]
    exact ⟨hinv.keysNodup, List.nodup_singleton _, by simpa using hkeys⟩
  · simp only
    rw [setById_ids]
    exact hinv.idsNodup
  · intro p hp
    obtain ⟨j, t⟩ := p
    rcases mem_setById.mp hp with ⟨hmem, _⟩ | ⟨hj, _, _⟩
    · exact hinv.idsLt (j, t) hmem
    · have h2 := hinv.idsLt (i, s) hs
      simpa [hj] using h2
  · intro q hq
    simp only at hq
    rw [hins] at hq
    rcases List.mem_append.mp hq with hq1 | hq1
    · obtain ⟨s2, hs2, ht2⟩ := hinv.tagSound q hq1
      by_cases hqi : q.2 = i
      · refine ⟨s1, mem_setById.mpr (Or.inr ⟨hqi, rfl, s, hs⟩), ?_⟩
        rw [htperm.mem_iff]
        have : s2 = s := idsNodup_pair_eq hinv.idsNodup (hqi ▸ hs2) hs
        exact List.mem_append_left _ (this ▸ ht2)
      · exact ⟨s2, mem_setById.mpr (Or.inl ⟨hs2, hqi⟩), ht2⟩
    · have : q = (tag, i) := by simpa using hq1
      rw [this]
      refine ⟨s1, mem_setById.mpr (Or.inr ⟨rfl, rfl, s, hs⟩), ?_⟩
      rw [htperm.mem_iff]
      exact List.mem_append_right _ (by simp)
  · intro p hp
    obtain ⟨j, t⟩ := p
    simp only at hp ⊢
    rw [hins]
    rcases mem_setById.mp hp with ⟨hmem, _⟩ | ⟨hj, ht, _⟩
    · intro tg htg
      exact List.mem_append_left _ (hinv.tagComplete (j, t) hmem tg htg)
    · subst ht
      intro tg htg
      rw [htperm.mem_iff] at htg
      rcases List.mem_append.mp htg with htg1 | htg1
      · have h2 := hinv.tagComplete (i, s) hs tg htg1
        exact List.mem_append_left _ (by simpa [hj] using h2)
      · have : tg = tag := by simpa using htg1
        rw [this, hj]
        exact List.mem_append_right _ (by simp)
  · intro p hp
    obtain ⟨j, t⟩ := p
    rcases mem_setById.mp hp with ⟨hmem, _⟩ | ⟨hj, ht, _⟩
    · exact hinv.tagsNonempty (j, t) hmem
    · subst ht
      intro hnil
      rw [hnil] at htperm
      have := htperm.symm.eq_nil
      simp at this
  · intro p hp
    obtain ⟨j, t⟩ := p
    rcases mem_setById.mp hp with ⟨hmem, _⟩ | ⟨hj, ht, _⟩
    · exact hinv.tagsNodup (j, t) hmem
    · subst ht
      rw [htperm.nodup_iff]
      rw [List.nodup_append]
      exact ⟨hinv.tagsNodup (i, s) hs, List.nodup_singleton _, by simpa using htagnotin⟩
  · exact setById_reqUnique hinv.idsNodup hs hreq1 hinv.reqUnique

theorem updInv_addFresh {σ : UpdaterState} {tick : Int} {rand : Int → Option Int}
    {now : Int} {tag : GoStr} {req : Request} {resp : Option Response} {s1 : OcspStatus}
    (hinv : UpdInv σ) (hlk : mapLookup tag σ.tagToStatus = none)
    (hfe : findEquiv req σ.statuses = none)
    (hupd : updateStatus tick rand now
              { request := req, response := none, nextUpdate := 0, tags := [tag] } resp
              = some s1) :
    UpdInv { σ with statuses := σ.statuses ++ [(σ.nextId, s1)],
                    tagToStatus := mapInsert tag σ.nextId σ.tagToStatus,
                    nextId := σ.nextId + 1 } := by
  have hrt := updateStatus_request_tags hupd
  have hreq1 : s1.request = req := hrt.1
  have htags1 : s1.tags = [tag] := hrt.2
  have hkeys : tag ∉ σ.tagToStatus.map (fun q => q.1) := mapLookup_none_iff.mp hlk
  have hins : mapInsert tag σ.nextId σ.tagToStatus = σ.tagToStatus ++ [(tag, σ.nextId)] :=
    mapInsert_of_not_mem hlk
  have hidfresh : σ.nextId ∉ σ.statuses.map (fun p => p.1) := by
    intro hmem
    obtain ⟨p, hp, hpe⟩ := List.mem_map.mp hmem
    exact absurd (hpe ▸ hinv.idsLt p hp) (lt_irrefl _)
  refine ⟨?_, ?_, ?_, ?_, ?_, ?_, ?_, ?_⟩
  · rw [hins, List.map_append]
    simp only [List.map_cons, List.map_nil]
    rw [List.nodup_append]
    exact ⟨hinv.keysNodup, List.nodup_singleton _, by simpa using hkeys⟩
  · simp only [List.map_append, List.map_cons, List.map_nil]
    rw [List.nodup_append]
    exact ⟨hinv.idsNodup, List.nodup_singleton _, by simpa using hidfresh⟩
  · intro p hp
    rcases List.mem_append.mp hp with hp1 | hp1
    · exact Nat.lt_succ_of_lt (hinv.idsLt p hp1)
    · have : p = (σ.nextId, s1) := by simpa using hp1
      rw [this]
      exact Nat.lt_succ_self _
  · intro q hq
    simp only at hq
    rw [hins] at hq
    rcases List.mem_append.mp hq with hq1 | hq1
    · obtain ⟨s2, hs2, ht2⟩ := hinv.tagSound q hq1
      exact ⟨s2, List.mem_append_left _ hs2, ht2⟩
    · have : q = (tag, σ.nextId) := by simpa using hq1
      rw [this]
      refine ⟨s1, List.mem_append_right _ (by simp), ?_⟩
      rw [htags1]
      simp
  · intro p hp
    simp only at hp ⊢
    rw [hins]
    rcases List.mem_append.mp hp with hp1 | hp1
    · intro tg htg
      exact List.mem_append_left _ (hinv.tagComplete p hp1 tg htg)
    · have : p = (σ.nextId, s1) := by simpa using hp1
      rw [this]
      intro tg htg
      rw [htags1] at htg
      have : tg = tag := by simpa using htg
      rw [this]
      exact List.mem_append_right _ (by simp)
  · intro p hp
    rcases List.mem_append.mp hp with hp1 | hp1
    · exact hinv.tagsNonempty p hp1
    · have : p = (σ.nextId, s1) := by simpa using hp1
      rw [this]
      simp [htags1]
  · intro p hp
    rcases List.mem_append.mp hp with hp1 | hp1
    · exact hinv.tagsNodup p hp1
    · have : p = (σ.nextId, s1) := by simpa using hp1
      rw [this]
      simp [htags1]
  · rw [List.pairwise_append]
    refine ⟨hinv.reqUnique, List.pairwise_singleton _ _, ?_⟩
    intro a ha b hb
    have : b = (σ.nextId, s1) := by simpa using hb
    rw [this]
    simp only [hreq1]
    rw [requestEqual_comm]
    exact findEquiv_none hfe a ha

theorem updInv_remove {σ : UpdaterState} (tag : GoStr) (hinv : UpdInv σ) :
    UpdInv (removeOp tag σ) := by
  unfold removeOp
  cases hlk : mapLookup tag σ.tagToStatus with
  | none => exact hinv
  | some i =>
    apply updInv_resetTimerS
    have hkeysnd : ((mapDelete tag σ.tagToStatus).map (fun q => q.1)).Nodup := by
      exact ((mapDelete_sublist tag σ.tagToStatus).map (fun q => q.1)).nodup hinv.keysNodup
    have hlkmem : (tag, i) ∈ σ.tagToStatus := mapLookup_mem hlk
    cases hget : getById i σ.statuses with
    | none =>
      refine ⟨hkeysnd, hinv.idsNodup, hinv.idsLt, ?_, ?_, hinv.tagsNonempty,
              hinv.tagsNodup, hinv.reqUnique⟩
      · intro q hq
        exact hinv.tagSound q (mem_mapDelete.mp hq).1
      · intro p hp tg htg
        have h2 := hinv.tagComplete p hp tg htg
        rw [mem_mapDelete]
        refine ⟨h2, ?_⟩
        intro heq
        have : (tag, p.1) ∈ σ.tagToStatus := by rw [← heq]; exact h2
        have hpi : p.1 = i := keysNodup_pair_eq hinv.keysNodup this hlkmem
        have : getById i σ.statuses = some p.2 := by
          rw [← hpi]
          exact getById_of_mem hinv.idsNodup (by rw [← Prod.mk.eta (p := p)] at hp; exact hp)
        rw [hget] at this
        exact absurd this (by simp)
    | some s =>
      have hs : (i, s) ∈ σ.statuses := getById_mem hget
      change UpdInv { σ with
          statuses := if removeFirstTag tag s.tags = [] then eraseById i σ.statuses
            else setById i { s with tags := removeFirstTag tag s.tags } σ.statuses,
          tagToStatus := mapDelete tag σ.tagToStatus }
      by_cases hempty : removeFirstTag tag s.tags = []
      · rw [if_pos hempty]
        have hstags : s.tags = [tag] := by
          rcases removeFirstTag_eq_nil hempty with h1 | h1
          · exact absurd h1 (hinv.tagsNonempty (i, s) hs)
          · exact h1
        refine ⟨hkeysnd, ?_, ?_, ?_, ?_, ?_, ?_, ?_⟩
        · exact ((eraseById_sublist i σ.statuses).map (fun p => p.1)).nodup hinv.idsNodup
        · intro p hp
          exact hinv.idsLt p ((eraseById_sublist i σ.statuses).mem hp)
        · intro q hq
          rw [mem_mapDelete] at hq
          obtain ⟨s2, hs2, ht2⟩ := hinv.tagSound q hq.1
          by_cases hqi : q.2 = i
          · exfalso
            have : s2 = s := idsNodup_pair_eq hinv.idsNodup (hqi ▸ hs2) hs
            rw [this, hstags] at ht2
            exact hq.2 (by simpa using ht2)
          · exact ⟨s2, mem_eraseById_of_ne hqi hs2, ht2⟩
        · intro p hp tg htg
          obtain ⟨j, t⟩ := p
          have hpl : (j, t) ∈ σ.statuses := (eraseById_sublist i σ.statuses).mem hp
          have h2 := hinv.tagComplete (j, t) hpl tg htg
          rw [mem_mapDelete]
          refine ⟨h2, ?_⟩
          intro heq
          have : (tag, j) ∈ σ.tagToStatus := by rw [← heq]; exact h2
          have hji : j = i := keysNodup_pair_eq hinv.keysNodup this hlkmem
          exact not_mem_eraseById hinv.idsNodup (hji ▸ hp)
        · intro p hp
          exact hinv.tagsNonempty p ((eraseById_sublist i σ.statuses).mem hp)
        · intro p hp
          exact hinv.tagsNodup p ((eraseById_sublist i σ.statuses).mem hp)
        · exact hinv.reqUnique.sublist (eraseById_sublist i σ.statuses)
      · rw [if_neg hempty]
        refine ⟨hkeysnd, ?_, ?_, ?_, ?_, ?_, ?_, ?_⟩
        · rw [setById_ids]
          exact hinv.idsNodup
        · intro p hp
          obtain ⟨j, t⟩ := p
          rcases mem_setById.mp hp with ⟨hmem, _⟩ | ⟨hj, _, _⟩
          · exact hinv.idsLt (j, t) hmem
          · have h2 := hinv.idsLt (i, s) hs
            simpa [hj] using h2
        · intro q hq
          rw [mem_mapDelete] at hq
          obtain ⟨s2, hs2, ht2⟩ := hinv.tagSound q hq.1
          by_cases hqi : q.2 = i
          · have hss : s2 = s := idsNodup_pair_eq hinv.idsNodup (hqi ▸ hs2) hs
            refine ⟨{ s with tags := removeFirstTag tag s.tags },
                    mem_setById.mpr (Or.inr ⟨hqi, rfl, s, hs⟩), ?_⟩
            exact mem_removeFirstTag_of_ne hq.2 (hss ▸ ht2)
          · exact ⟨s2, mem_setById.mpr (Or.inl ⟨hs2, hqi⟩), ht2⟩
        · intro p hp tg htg
          obtain ⟨j, t⟩ := p
          rw [mem_mapDelete]
          rcases mem_setById.mp hp with ⟨hmem, hne⟩ | ⟨hj, ht, _⟩
          · have h2 := hinv.tagComplete (j, t) hmem tg htg
            refine ⟨h2, ?_⟩
            intro heq
            have : (tag, j) ∈ σ.tagToStatus := by rw [← heq]; exact h2
            exact hne (keysNodup_pair_eq hinv.keysNodup this hlkmem)
          · subst ht
            have htg2 : tg ∈ s.tags := (removeFirstTag_sublist tag s.tags).mem htg
            have h2 := hinv.tagComplete (i, s) hs tg htg2
            refine ⟨by simpa [hj] using h2, ?_⟩
            intro heq
            have heq2 : tg = tag := heq
            rw [heq2] at htg
            exact not_mem_removeFirstTag (hinv.tagsNodup (i, s) hs) htg
        · intro p hp
          obtain ⟨j, t⟩ := p
          rcases mem_setById.mp hp with ⟨hmem, _⟩ | ⟨hj, ht, _⟩
          · exact hinv.tagsNonempty (j, t) hmem
          · subst ht
            exact hempty
        · intro p hp
          obtain ⟨j, t⟩ := p
          rcases mem_setById.mp hp with ⟨hmem, _⟩ | ⟨hj, ht, _⟩
          · exact hinv.tagsNodup (j, t) hmem
          · subst ht
            exact ((removeFirstTag_sublist tag s.tags).nodup (hinv.tagsNodup (i, s) hs))
        · exact setById_reqUnique hinv.idsNodup hs rfl hinv.reqUnique

theorem updInv_updateNow {σ σ1 : UpdaterState} {tick : Int} {rand : Int → Option Int}
    {now : Int} {fetch : OcspStatus → FetchResult} {evs : List Event}
    (hinv : UpdInv σ) (h : updateNowOp tick rand now fetch σ = some (σ1, evs)) :
    UpdInv σ1 := by
  unfold updateNowOp at h
  rw [Option.map_eq_some'] at h
  obtain ⟨⟨l1, evs1⟩, hs, heq⟩ := h
  injection heq with heq1 heq2
  rw [← heq1]
  exact updInv_resetTimerS (updInv_statuses_projRT (sweep_projRT hs) hinv)

theorem updInv_addOrUpdate {σ σ1 : UpdaterState} {tick : Int} {rand : Int → Option Int}
    {now : Int} {tag : GoStr} {req : Request} {resp : Option Response}
    {evs : List Event} {dup : Bool}
    (hinv : UpdInv σ) (h : addOrUpdate tick rand now tag req resp σ = some (σ1, evs, dup)) :
    UpdInv σ1 := by
  unfold addOrUpdate at h
  split at h
  · exact absurd h (by simp)
  · split at h
    · -- tag already indexed
      split at h
      · -- dangling id: state unchanged
        simp only [Option.some.injEq, Prod.mk.injEq] at h
        rw [← h.1]
        exact hinv
      · rename_i s hget
        split at h
        · simp only [Option.some.injEq, Prod.mk.injEq] at h
          rw [← h.1]
          exact hinv
        · split at h
          · exact absurd h (by simp)
          · rename_i s1 hupd
            simp only [Option.some.injEq, Prod.mk.injEq] at h
            rw [← h.1]
            exact updInv_resetTimerS (updInv_addTagIndexed hinv hget hupd)
    · rename_i hlk
      split at h
      · -- new tag on an existing equivalent request
        rename_i i s hfe
        split at h
        · exact absurd h (by simp)
        · rename_i s1 hupd
          simp only [Option.some.injEq, Prod.mk.injEq] at h
          rw [← h.1]
          exact updInv_resetTimerS (updInv_addTagEquivalent hinv hlk hfe hupd)
      · -- fresh status
        rename_i hfe
        split at h
        · exact absurd h (by simp)
        · rename_i s1 hupd
          simp only [Option.some.injEq, Prod.mk.injEq] at h
          rw [← h.1]
          exact updInv_resetTimerS (updInv_addFresh hinv hlk hfe hupd)

theorem updInv_startOp {σ : UpdaterState} (hinv : UpdInv σ) : UpdInv (startOp σ) := by
  unfold startOp
  split
  · exact hinv
  · exact updInv_resetTimerS ⟨hinv.keysNodup, hinv.idsNodup, hinv.idsLt, hinv.tagSound,
      hinv.tagComplete, hinv.tagsNonempty, hinv.tagsNodup, hinv.reqUnique⟩

theorem updInv_stopOp {σ : UpdaterState} (hinv : UpdInv σ) : UpdInv (stopOp σ) := by
  unfold stopOp
  split
  · exact ⟨hinv.keysNodup, hinv.idsNodup, hinv.idsLt, hinv.tagSound,
      hinv.tagComplete, hinv.tagsNonempty, hinv.tagsNodup, hinv.reqUnique⟩
  · exact hinv

theorem updInv_init : UpdInv updaterInit := by
  refine ⟨?_, ?_, ?_, ?_, ?_, ?_, ?_, ?_⟩ <;> simp [updaterInit]

theorem updInv_reachable {σ : UpdaterState} (h : Reachable σ) : UpdInv σ := by
  induction h with
  | init => exact updInv_init
  | add σ0 σ1 tick rand now tag req resp evs dup h hstep ih => exact updInv_addOrUpdate ih hstep
  | remove σ0 tag h ih => exact updInv_remove tag ih
  | updateNow σ0 σ1 tick rand now fetch evs h hstep ih => exact updInv_updateNow ih hstep
  | start σ0 h ih => exact updInv_startOp ih
  | stop σ0 h ih => exact updInv_stopOp ih

theorem mapLookup_of_mem {k : GoStr} {v : Nat} {l : List (GoStr × Nat)}
    (hnd : (l.map (fun q => q.1)).Nodup) (h : (k, v) ∈ l) : mapLookup k l = some v := by
  induction l with
  | nil => simp at h
  | cons q rest ih =>
    obtain ⟨k1, v1⟩ := q
    simp only [List.map_cons, List.nodup_cons] at hnd
    rcases List.mem_cons.mp h with h1 | h1
    · injection h1 with h1a h1b
      subst h1a; subst h1b
      simp [mapLookup]
    · by_cases hk : k1 = k
      · exfalso
        apply hnd.1
        rw [hk]
        exact List.mem_map_of_mem (fun q => q.1) h1
      · simp only [mapLookup, beq_iff_eq, hk, if_false]
        exact ih hnd.2 h1

/-- C1: for every call to the Updater's scheduling step `updateStatus(status, r)`
at current time `now`, a non-nil `r` is stored into the status and
`status.nextUpdate` is then set by the first matching rule of the spec's
five-rule list (MaxAge override; expired response refreshes asap; midpoint
with jitter, truncated to `TickRound`; no response at all refreshes asap;
otherwise unchanged). -/
theorem C1_updateStatus_five_rules (tick : Int) (rand : Int → Option Int) (now : Int)
    (s : OcspStatus) (r : Option Response) :
    updateStatus tick rand now s r = specUpdateStatus tick rand now s r :=
  updateStatus_eq_spec tick rand now s r

/-- C3: `needsRefresh(r, mtime, period, now)` returns `true` iff the response
is expired (`NextUpdate` zero or past), or would expire before the next poll
(`now + period > NextUpdate`), or the validity-window midpoint lies in
`(mtime, now]`; and the five boundary-table rows evaluate as listed
(times relative to `now`, here `now = 100h` after the zero time). -/
theorem C3_needsRefresh_iff :
    (∀ (r : OcspResponse) (mtime period now : Int),
      needsRefresh r mtime period now = true ↔
        (r.nextUpdate = 0 ∨ r.nextUpdate < now ∨ now + period > r.nextUpdate ∨
          (mtime < r.thisUpdate + Int.tdiv (r.nextUpdate - r.thisUpdate) 2 ∧
           r.thisUpdate + Int.tdiv (r.nextUpdate - r.thisUpdate) 2 ≤ now))) ∧
    needsRefresh ⟨4 * nsHour, 0⟩ 0 0 (100 * nsHour) = true ∧
    needsRefresh ⟨76 * nsHour, 172 * nsHour⟩ (88 * nsHour) (12 * nsHour) (100 * nsHour)
      = false ∧
    needsRefresh ⟨76 * nsHour, 172 * nsHour⟩ (88 * nsHour) (96 * nsHour) (100 * nsHour)
      = true ∧
    needsRefresh ⟨51 * nsHour, 147 * nsHour⟩ (88 * nsHour) (12 * nsHour) (100 * nsHour)
      = true ∧
    needsRefresh ⟨27 * nsHour, 123 * nsHour⟩ (88 * nsHour) (12 * nsHour) (100 * nsHour)
      = false := by
  refine ⟨?_, by decide, by decide, by decide, by decide, by decide⟩
  intro r mtime period now
  simp only [needsRefresh]
  split
  · rename_i h1
    simp only [Bool.or_eq_true, decide_eq_true_eq] at h1
    simp only [true_iff]
    tauto
  · rename_i h1
    simp only [Bool.or_eq_true, decide_eq_true_eq, not_or] at h1
    split
    · rename_i h2
      simp only [true_iff]
      tauto
    · rename_i h2
      split
      · rename_i h3
        simp only [Bool.false_eq_true, false_iff, not_or]
        refine ⟨h1.1, fun hc => absurd hc (not_lt.mpr (le_of_not_lt h1.2)), fun hc => h2 hc, ?_⟩
        intro hc
        exact absurd h3 (not_lt.mpr hc.2)
      · rename_i h3
        split
        · rename_i h4
          simp only [true_iff]
          right; right; right
          exact ⟨h4, le_of_not_lt h3⟩
        · rename_i h4
          simp only [Bool.false_eq_true, false_iff, not_or]
          refine ⟨h1.1, fun hc => absurd hc h1.2, fun hc => h2 hc, ?_⟩
          intro hc
          exact h4 hc.1

/-- C6: after every completed public Updater operation, every indexed tag is
listed on the status it maps to and conversely, no live status has an empty
tag set, and no two distinct statuses have equivalent requests. -/
theorem C6_updater_invariants (σ : UpdaterState) (h : Reachable σ) :
    (∀ t i, mapLookup t σ.tagToStatus = some i →
        ∃ s, (i, s) ∈ σ.statuses ∧ t ∈ s.tags) ∧
    (∀ i s, (i, s) ∈ σ.statuses → ∀ t ∈ s.tags, mapLookup t σ.tagToStatus = some i) ∧
    (∀ i s, (i, s) ∈ σ.statuses → s.tags ≠ []) ∧
    σ.statuses.Pairwise (fun a b => requestEqual a.2.request b.2.request = false) := by
  have hinv := updInv_reachable h
  refine ⟨?_, ?_, ?_, hinv.reqUnique⟩
  · intro t i hlk
    exact hinv.tagSound (t, i) (mapLookup_mem hlk)
  · intro i s hs t ht
    exact mapLookup_of_mem hinv.keysNodup (hinv.tagComplete (i, s) hs t ht)
  · intro i s hs
    exact hinv.tagsNonempty (i, s) hs

/-- A certificate with no OCSP-server entries, for concrete instantiations. -/
def exCert : Certificate := { ocspServer := [], notAfter := 1000 }

/-- A concrete GET-form request, for concrete instantiations. -/
def exReq : Request := { url := str "http://o/", body := none, notAfter := 1000, issuer := exCert }

/-- The status created by registering `exReq` under tag `"a"`. -/
def exStatusA : OcspStatus := { request := exReq, response := none, nextUpdate := 0,
                                tags := [str "a"] }

/-- The Updater state after `AddOrUpdate("a", exReq, nil)` on a fresh Updater. -/
def exStateA : UpdaterState := { statuses := [(0, exStatusA)], tagToStatus := [(str "a", 0)],
                                 started := false, nextId := 1 }

theorem C6_updater_invariants_witness :
    (∀ t i, mapLookup t exStateA.tagToStatus = some i →
        ∃ s, (i, s) ∈ exStateA.statuses ∧ t ∈ s.tags) ∧
    (∀ i s, (i, s) ∈ exStateA.statuses → ∀ t ∈ s.tags, mapLookup t exStateA.tagToStatus = some i) ∧
    (∀ i s, (i, s) ∈ exStateA.statuses → s.tags ≠ []) ∧
    exStateA.statuses.Pairwise (fun a b => requestEqual a.2.request b.2.request = false) :=
  C6_updater_invariants exStateA
    (Reachable.add updaterInit exStateA 1 (fun _ => none) 0 (str "a") exReq none [] false
      Reachable.init rfl)

/-- C8: a fetch error on a due status defers it by exactly `TickRound`: the
sweep keeps the status (same request, stored response and tags, with
`nextUpdate` advanced by `tick`), emits no event for it, and continues with
the remaining due statuses. -/
theorem C8_fetch_error_defers (tick : Int) (rand : Int → Option Int) (now : Int)
    (fetch : OcspStatus → FetchResult) (i : Nat) (s : OcspStatus)
    (rest : List (Nat × OcspStatus))
    (hdue : s.nextUpdate ≤ now) (herr : fetch s = Except.error ()) :
    sweep tick rand now fetch ((i, s) :: rest) =
      (sweep tick rand now fetch rest).map
        (fun p => ((i, { s with nextUpdate := s.nextUpdate + tick }) :: p.1, p.2)) ∧
    ({ s with nextUpdate := s.nextUpdate + tick }).request = s.request ∧
    ({ s with nextUpdate := s.nextUpdate + tick }).response = s.response ∧
    ({ s with nextUpdate := s.nextUpdate + tick }).tags = s.tags := by
  refine ⟨?_, rfl, rfl, rfl⟩
  simp only [sweep]
  rw [if_neg (not_lt.mpr hdue), herr]

/-- The due status used to instantiate the deferral theorem. -/
def exStatusDue : OcspStatus := { request := exReq, response := none, nextUpdate := 5,
                                  tags := [str "a"] }

theorem C8_fetch_error_defers_witness :
    sweep nsHour (fun _ => none) 10 (fun _ => Except.error ()) [(0, exStatusDue)] =
      (sweep nsHour (fun _ => none) 10 (fun _ => Except.error ()) []).map
        (fun p => ((0, { exStatusDue with nextUpdate := exStatusDue.nextUpdate + nsHour })
                     :: p.1, p.2)) ∧
    ({ exStatusDue with nextUpdate := exStatusDue.nextUpdate + nsHour }).request
      = exStatusDue.request ∧
    ({ exStatusDue with nextUpdate := exStatusDue.nextUpdate + nsHour }).response
      = exStatusDue.response ∧
    ({ exStatusDue with nextUpdate := exStatusDue.nextUpdate + nsHour }).tags
      = exStatusDue.tags :=
  C8_fetch_error_defers nsHour (fun _ => none) 10 (fun _ => Except.error ()) 0 exStatusDue []
    (by decide) rfl

/-- C9: a status scheduled through rule 3 (parsed response present, not yet
expired, no overriding MaxAge) whose `NextUpdate` is at or before
`now + TickRound` produces a non-positive half-remaining duration, so the
default jitter hands `rand.Int63n` a non-positive bound and the call panics:
`updateStatus` aborts instead of producing a `nextUpdate`. -/
theorem C9_jitter_panic_on_soon_expiry (tick : Int) (int63n : Int → Option Int) (now : Int)
    (s : OcspStatus) (rr : Response) (o : OcspResponse)
    (hcontract : ∀ n : Int, n ≤ 0 → int63n n = none)
    (ho : rr.ocspResponse = some o)
    (hmax : rr.maxAge = 0 ∨ ¬ rr.maxAge < o.nextUpdate)
    (hnotpast : ¬ o.nextUpdate < now)
    (hsoon : o.nextUpdate ≤ now + tick) :
    Int.tdiv (o.nextUpdate - (now + tick)) 2 ≤ 0 ∧
      updateStatus tick (defaultRand int63n) now s (some rr) = none := by
  have hd : o.nextUpdate - (now + tick) ≤ 0 := by omega
  have hh : Int.tdiv (o.nextUpdate - (now + tick)) 2 ≤ 0 := by
    have h1 : 0 ≤ Int.tdiv (-(o.nextUpdate - (now + tick))) 2 :=
      Int.tdiv_nonneg (by omega) (by norm_num)
    have h2 : Int.tdiv (o.nextUpdate - (now + tick)) 2
        = -Int.tdiv (-(o.nextUpdate - (now + tick))) 2 := by
      rw [← Int.neg_tdiv, neg_neg]
    omega
  refine ⟨hh, ?_⟩
  simp only [updateStatus, ho]
  have hcond : (rr.maxAge != 0 && decide (rr.maxAge < o.nextUpdate)) = false := by
    rcases hmax with h1 | h1
    · simp [h1]
    · simp [h1]
  rw [hcond]
  simp only [Bool.false_eq_true, if_false]
  rw [if_neg hnotpast]
  rw [defaultRand, hcontract _ hh]
  rfl

/-- The response used to instantiate the jitter-panic theorem: still valid at
`now = 0` but expiring exactly one `TickRound` later. -/
def exSoonResponse : Response :=
  { ocspResponse := some { thisUpdate := 0, nextUpdate := nsHour },
    rawOCSPResponse := [], maxAge := 0, etag := [], lastModified := 0 }

theorem C9_jitter_panic_witness :
    Int.tdiv (nsHour - (0 + nsHour)) 2 ≤ 0 ∧
      updateStatus nsHour (defaultRand (fun n => if n ≤ 0 then none else some 0)) 0
        exStatusA (some exSoonResponse) = none := by
  have h := C9_jitter_panic_on_soon_expiry nsHour (fun n => if n ≤ 0 then none else some 0) 0
    exStatusA exSoonResponse { thisUpdate := 0, nextUpdate := nsHour }
    (fun n hn => by simp [hn]) rfl (Or.inl rfl) (by decide) (by decide)
  exact h

/-- `strconv.Atoi`: optional sign, decimal digits, `none` on syntax error or
64-bit overflow (`Atoi` then returns a non-nil error, which `maxAge` treats as
"ignore the directive"). -/
def goAtoi (s : GoStr) : Option Int :=
  let neg := s.head? = some '-'
  let digits := if s.head? = some '-' ∨ s.head? = some '+' then s.drop 1 else s
  if digits = [] then none
  else if digits.all (fun c => decide ('0' ≤ c ∧ c ≤ '9')) then
    let n : Int := digits.foldl (fun a c => a * 10 + ((c.toNat : Int) - 48)) 0
    let v : Int := if neg then -n else n
    if -(2 ^ 63) ≤ v ∧ v ≤ 2 ^ 63 - 1 then some v else none
  else none

/-- `consumeCacheControlKey` (fetch.go lines 219-225): split at the first `,`
or `=` (`IndexAny` plus slicing is modelled by `takeWhile`/`dropWhile` at the
first delimiter).  Note the Go code lower-cases the key only when a delimiter
was found; a trailing directive is merely whitespace-trimmed. -/
def consumeCacheControlKey (h : GoStr) : GoStr × GoStr :=
  if h.dropWhile (fun c => ¬ (c = ',' ∨ c = '=')) = [] then (goTrim h, [])
  else (goToLower (goTrim (h.takeWhile (fun c => ¬ (c = ',' ∨ c = '=')))),
        h.dropWhile (fun c => ¬ (c = ',' ∨ c = '=')))

/-- The `for i, r := range h[1:]` scan of `consumeCacheControlValue`: position
of the closing quote, tracking the quoted-pair state exactly as the Go switch
does (a backslash always sets it, even when already set). -/
def scanQuoted : GoStr → Bool → Option Nat
  | [], _ => none
  | c :: rest, inQP =>
    if c = '\\' then (scanQuoted rest true).map (fun i => i + 1)
    else if inQP then (scanQuoted rest false).map (fun i => i + 1)
    else if c = '"' then some 0
    else (scanQuoted rest inQP).map (fun i => i + 1)

/-- `consumeCacheControlValue` (fetch.go lines 227-249); the Go local
`h = TrimLeftFunc(h, IsSpace)` is written out as `goTrimLeft h0`. -/
def consumeCacheControlValue (h0 : GoStr) : GoStr × GoStr :=
  if (goTrimLeft h0).head? = some '"' then
    match scanQuoted ((goTrimLeft h0).drop 1) false with
    | some i => (((goTrimLeft h0).drop 1).take i, goTrimLeft ((goTrimLeft h0).drop (i + 2)))
    | none => (goTrimLeft h0, [])
  else
    if (goTrimLeft h0).dropWhile (fun c => ¬ c = ',') = [] then (goTrimLeft h0, [])
    else (goTrim ((goTrimLeft h0).takeWhile (fun c => ¬ c = ',')),
          (goTrimLeft h0).dropWhile (fun c => ¬ c = ','))

/-- The `v, rest` pair after an optional `=value` in
`consumeCacheControlDirective`: Go's
`if strings.HasPrefix(rest, "=") { v, rest = consumeCacheControlValue(...) }`. -/
def consumeCCValueAt (r0 : GoStr) : GoStr × GoStr :=
  if r0.head? = some '=' then consumeCacheControlValue (goTrimLeft (r0.drop 1))
  else ([], r0)

/-- `consumeCacheControlDirective` (fetch.go lines 207-217): one `key[=value]`
directive plus the remaining input; a missing `,` separator empties the rest
("malformed value, ignore the rest"). -/
def consumeCacheControlDirective (h : GoStr) : GoStr × GoStr × GoStr :=
  ((consumeCacheControlKey h).1,
   (consumeCCValueAt (consumeCacheControlKey h).2).1,
   if (consumeCCValueAt (consumeCacheControlKey h).2).2.head? = some ',' then
     (consumeCCValueAt (consumeCacheControlKey h).2).2.drop 1
   else [])

theorem goTrimLeft_length_le (s : GoStr) : (goTrimLeft s).length ≤ s.length :=
  (List.dropWhile_sublist _).length_le

theorem consumeCacheControlValue_rest_le (w : GoStr) :
    (consumeCacheControlValue w).2.length ≤ w.length := by
  have hw : (goTrimLeft w).length ≤ w.length := goTrimLeft_length_le w
  unfold consumeCacheControlValue
  split
  · split
    · rename_i i hscan
      calc (goTrimLeft ((goTrimLeft w).drop (i + 2))).length
          ≤ ((goTrimLeft w).drop (i + 2)).length := goTrimLeft_length_le _
        _ ≤ (goTrimLeft w).length := by rw [List.length_drop]; omega
        _ ≤ w.length := hw
    · simp
  · split
    · simp
    · calc ((goTrimLeft w).dropWhile (fun c => ¬ c = ',')).length
          ≤ (goTrimLeft w).length := (List.dropWhile_sublist _).length_le
        _ ≤ w.length := hw

theorem consumeCacheControlKey_rest_le (h : GoStr) :
    (consumeCacheControlKey h).2.length ≤ h.length := by
  unfold consumeCacheControlKey
  split
  · simp
  · exact (List.dropWhile_sublist _).length_le

theorem consumeCCValueAt_rest_le (r0 : GoStr) :
    (consumeCCValueAt r0).2.length ≤ r0.length := by
  unfold consumeCCValueAt
  split
  · rename_i heq
    have hr0 : r0 ≠ [] := by
      intro hnil
      rw [hnil] at heq
      simp at heq
    have h1 := consumeCacheControlValue_rest_le (goTrimLeft (r0.drop 1))
    have h2 := goTrimLeft_length_le (r0.drop 1)
    have h3 : (r0.drop 1).length ≤ r0.length := by rw [List.length_drop]; omega
    omega
  · exact le_refl _

theorem consumeCacheControlDirective_rest_lt {h : GoStr} (hne : h ≠ []) :
    (consumeCacheControlDirective h).2.2.length < h.length := by
  have hpos : 0 < h.length := List.length_pos.mpr hne
  have hkey := consumeCacheControlKey_rest_le h
  have hval := consumeCCValueAt_rest_le (consumeCacheControlKey h).2
  unfold consumeCacheControlDirective
  split
  · rename_i hcomma
    have hv2 : (consumeCCValueAt (consumeCacheControlKey h).2).2 ≠ [] := by
      intro hnil
      rw [hnil] at hcomma
      simp at hcomma
    have := List.length_pos.mpr hv2
    simp only [List.length_drop]
    omega
  · simpa using hpos

/-- The HTTP response headers the repository reads.  `http.Header.Get` returns
the empty string when a header is absent, so `[]` models an absent header;
`cacheControl` holds all `Cache-Control` values (`h["Cache-Control"]`), where
an absent key behaves identically to an empty value list in `maxAge`. -/
structure HttpHeader where
  cacheControl : List GoStr
  expires : GoStr
  date : GoStr
  etag : GoStr
  lastModified : GoStr
  contentType : GoStr
deriving DecidableEq, Repr

/-- `serverDate` (fetch.go lines 196-205): the parsed `Date` header, or `now`
when absent or malformed.  `parseTime` stands for `http.ParseTime`. -/
def serverDate (parseTime : GoStr → Option Int) (h : HttpHeader) (now : Int) : Int :=
  match h.date with
  | [] => now
  | d => match parseTime d with | some t => t | none => now

/-- `lastModified` (fetch.go lines 251-258): parse failures are ignored,
leaving the zero time. -/
def lastModified (parseTime : GoStr → Option Int) (h : HttpHeader) : Int :=
  match h.lastModified with
  | [] => 0
  | s0 => (parseTime s0).getD 0

/-- The `Expires` fallback at the end of `maxAge` (fetch.go lines 187-192),
reached both when `Cache-Control` is absent and when it yields no usable
directive. -/
def expiresFallback (parseTime : GoStr → Option Int) (h : HttpHeader) : Int :=
  match h.expires with
  | [] => 0
  | eh => match parseTime eh with | some e => e | none => 0

/-- The inner directive loop of `maxAge` over one `Cache-Control` value
(fetch.go lines 165-181): `Sum.inl` is the early `return now` on `no-cache`
or `max-age=0`, `Sum.inr` the running minimum `m`. -/
def maxAgeValueLoop (sdate : Int) (rest : GoStr) (m : Int) : Sum Int Int :=
  if _hr : rest = [] then Sum.inr m
  else
    if (consumeCacheControlDirective rest).1 = str "max-age" then
      match goAtoi (consumeCacheControlDirective rest).2.1 with
      | some n =>
        if 0 ≤ n then
          if n = 0 then Sum.inl sdate
          else maxAgeValueLoop sdate (consumeCacheControlDirective rest).2.2
                 (if n < m then n else m)
        else maxAgeValueLoop sdate (consumeCacheControlDirective rest).2.2 m
      | none => maxAgeValueLoop sdate (consumeCacheControlDirective rest).2.2 m
    else if (consumeCacheControlDirective rest).1 = str "no-cache" then Sum.inl sdate
    else maxAgeValueLoop sdate (consumeCacheControlDirective rest).2.2 m
termination_by rest.length
decreasing_by
  all_goals exact consumeCacheControlDirective_rest_lt _hr

/-- The outer loop of `maxAge` over all `Cache-Control` header values. -/
def maxAgeValuesLoop (sdate : Int) : List GoStr → Int → Sum Int Int
  | [], m => Sum.inr m
  | c :: cs, m =>
    match maxAgeValueLoop sdate c m with
    | Sum.inl t => Sum.inl t
    | Sum.inr m1 => maxAgeValuesLoop sdate cs m1

/-- `maxAge` (fetch.go lines 160-193).  `m` starts at `math.MaxInt64`;
`now.Add(time.Duration(m) * time.Second)` multiplies in wrapping `int64`
nanoseconds, hence `wrap64`. -/
def maxAge (parseTime : GoStr → Option Int) (h : HttpHeader) (now : Int) : Int :=
  match h.cacheControl with
  | [] => expiresFallback parseTime h
  | cc =>
    match maxAgeValuesLoop (serverDate parseTime h now) cc maxInt64 with
    | Sum.inl t => t
    | Sum.inr m =>
      if m ≠ maxInt64 then serverDate parseTime h now + wrap64 (m * nsSecond)
      else expiresFallback parseTime h

/-- The full directive list of one `Cache-Control` value, as produced by the
code's own tokenizer. -/
def ccDirectives (c : GoStr) : List (GoStr × GoStr) :=
  if _hr : c = [] then []
  else ((consumeCacheControlDirective c).1, (consumeCacheControlDirective c).2.1)
         :: ccDirectives (consumeCacheControlDirective c).2.2
termination_by c.length
decreasing_by
  all_goals exact consumeCacheControlDirective_rest_lt _hr

/-- A directive that forces `MaxAge = ServerDate`: `no-cache`, or `max-age`
whose value parses to `0`. -/
def isNoCacheDir (kv : GoStr × GoStr) : Bool :=
  kv.1 == str "no-cache" || (kv.1 == str "max-age" && goAtoi kv.2 == some 0)

/-- The parsed value of a usable `max-age=N` directive (`N ≥ 0`). -/
def validMaxAge (kv : GoStr × GoStr) : Option Int :=
  if kv.1 = str "max-age" then
    match goAtoi kv.2 with
    | some n => if 0 ≤ n then some n else none
    | none => none
  else none

/-- `MaxAge` derivation as the specification words it (section 4.2), over the
directive list: if any directive is `no-cache` or `max-age=0`, the server
date; else, if some usable `max-age` value lies strictly below `2^63 - 1`,
the server date plus the minimum usable `max-age` converted to wrapping
64-bit nanoseconds (the `foldl min maxInt64` seed is then exactly that
minimum); else the `Expires` fallback — in particular a usable `max-age` of
exactly `2^63 - 1` on its own is treated as absent, because the code tracks
the minimum against the `math.MaxInt64` sentinel with a strict `n < m`
comparison. -/
def specMaxAge (parseTime : GoStr → Option Int) (h : HttpHeader) (now : Int) : Int :=
  match h.cacheControl with
  | [] => expiresFallback parseTime h
  | cc =>
    if ((cc.map ccDirectives).flatten).any isNoCacheDir then serverDate parseTime h now
    else
      if (((cc.map ccDirectives).flatten).filterMap validMaxAge).any
          (fun n => decide (n < maxInt64)) then
        serverDate parseTime h now
          + wrap64 ((((cc.map ccDirectives).flatten).filterMap validMaxAge).foldl min maxInt64
              * nsSecond)
      else expiresFallback parseTime h

theorem foldl_min_le (a : Int) (l : List Int) : l.foldl min a ≤ a := by
  induction l generalizing a with
  | nil => exact le_refl a
  | cons n l ih =>
    rw [List.foldl_cons]
    exact le_trans (ih (min a n)) (min_le_left a n)

theorem foldl_min_le_mem {a n : Int} {l : List Int} (h : n ∈ l) : l.foldl min a ≤ n := by
  induction l generalizing a with
  | nil => simp at h
  | cons m l ih =>
    rw [List.foldl_cons]
    rcases List.mem_cons.mp h with h1 | h1
    · subst h1
      exact le_trans (foldl_min_le (min a n) l) (min_le_right a n)
    · exact ih h1

theorem foldl_min_lt_iff (a : Int) (l : List Int) :
    l.foldl min a < a ↔ ∃ n ∈ l, n < a := by
  induction l generalizing a with
  | nil => simp
  | cons m l ih =>
    rw [List.foldl_cons]
    constructor
    · intro hlt
      by_cases hm : m < a
      · exact ⟨m, List.mem_cons_self _ _, hm⟩
      · rw [min_eq_left (le_of_not_lt hm)] at hlt
        obtain ⟨n, hn, hna⟩ := (ih a).mp hlt
        exact ⟨n, List.mem_cons_of_mem _ hn, hna⟩
    · rintro ⟨n, hn, hna⟩
      rcases List.mem_cons.mp hn with h1 | h1
      · subst h1
        exact lt_of_le_of_lt (le_trans (foldl_min_le (min a n) l) (min_le_right a n)) hna
      · exact lt_of_le_of_lt (foldl_min_le_mem h1) hna

/-- The code's `MaxInt64` sentinel check is exactly "some tracked value lies
strictly below `MaxInt64`". -/
theorem foldl_min_sentinel (l : List Int) :
    l.foldl min maxInt64 ≠ maxInt64 ↔ l.any (fun n => decide (n < maxInt64)) = true := by
  have hle := foldl_min_le maxInt64 l
  constructor
  · intro hne
    obtain ⟨n, hn, hna⟩ := (foldl_min_lt_iff maxInt64 l).mp (lt_of_le_of_ne hle hne)
    rw [List.any_eq_true]
    exact ⟨n, hn, by simpa using hna⟩
  · intro hany
    obtain ⟨n, hn, hna⟩ := List.any_eq_true.mp hany
    exact ne_of_lt ((foldl_min_lt_iff maxInt64 l).mpr ⟨n, hn, by simpa using hna⟩)

theorem minStep_eq_min (m n : Int) : (if n < m then n else m) = min m n := by
  rw [min_def]
  split_ifs <;> omega

theorem maxAgeValueLoop_eq_aux (sdate : Int) :
    ∀ (k : Nat) (c : GoStr), c.length ≤ k → ∀ (m : Int),
      maxAgeValueLoop sdate c m =
        if (ccDirectives c).any isNoCacheDir then Sum.inl sdate
        else Sum.inr (((ccDirectives c).filterMap validMaxAge).foldl min m) := by
  intro k
  induction k with
  | zero =>
    intro c hc m
    have hcnil : c = [] := List.length_eq_zero.mp (Nat.le_zero.mp hc)
    subst hcnil
    rw [maxAgeValueLoop, ccDirectives]
    simp
  | succ k ih =>
    intro c hc m
    by_cases hcnil : c = []
    · subst hcnil
      rw [maxAgeValueLoop, ccDirectives]
      simp
    · have hlt := consumeCacheControlDirective_rest_lt hcnil
      have hrec : (consumeCacheControlDirective c).2.2.length ≤ k := by omega
      rw [maxAgeValueLoop, ccDirectives]
      rw [dif_neg hcnil, dif_neg hcnil]
      by_cases hkey : (consumeCacheControlDirective c).1 = str "max-age"
      · rw [if_pos hkey]
        cases hatoi : goAtoi (consumeCacheControlDirective c).2.1 with
        | some n =>
          by_cases hn0 : 0 ≤ n
          · by_cases hnz : n = 0
            · subst hnz
              have hnc : isNoCacheDir ((consumeCacheControlDirective c).1,
                  (consumeCacheControlDirective c).2.1) = true := by
                simp [isNoCacheDir, hkey, hatoi]
              simp [hnc]
            · have hnc : isNoCacheDir ((consumeCacheControlDirective c).1,
                  (consumeCacheControlDirective c).2.1) = false := by
                simp only [isNoCacheDir, hkey, hatoi]
                simp [str]
                intro hfalse
                exact absurd hfalse hnz
              have hvm : validMaxAge ((consumeCacheControlDirective c).1,
                  (consumeCacheControlDirective c).2.1) = some n := by
                simp [validMaxAge, hkey, hatoi, hn0]
              simp only [hn0, hnz, if_true, if_false, ite_true, ite_false,
                ih _ hrec, List.any_cons, hnc, Bool.false_or, List.filterMap_cons, hvm,
                List.foldl_cons, minStep_eq_min]
          · have hnc : isNoCacheDir ((consumeCacheControlDirective c).1,
                (consumeCacheControlDirective c).2.1) = false := by
              simp only [isNoCacheDir, hkey, hatoi]
              simp [str]
              intro hfalse
              omega
            have hvm : validMaxAge ((consumeCacheControlDirective c).1,
                (consumeCacheControlDirective c).2.1) = none := by
              simp [validMaxAge, hkey, hatoi, hn0]
            simp only [ih _ hrec, List.any_cons, hnc, Bool.false_or,
              List.filterMap_cons, hvm]
            simp [hn0]
        | none =>
          have hnc : isNoCacheDir ((consumeCacheControlDirective c).1,
              (consumeCacheControlDirective c).2.1) = false := by
            simp only [isNoCacheDir, hkey, hatoi]
            simp [str]
          have hvm : validMaxAge ((consumeCacheControlDirective c).1,
              (consumeCacheControlDirective c).2.1) = none := by
            simp [validMaxAge, hkey, hatoi]
          simp only [ih _ hrec, List.any_cons, hnc, Bool.false_or,
            List.filterMap_cons, hvm]
      · rw [if_neg hkey]
        by_cases hkey2 : (consumeCacheControlDirective c).1 = str "no-cache"
        · rw [if_pos hkey2]
          have hnc : isNoCacheDir ((consumeCacheControlDirective c).1,
              (consumeCacheControlDirective c).2.1) = true := by
            simp [isNoCacheDir, hkey2]
          simp [hnc]
        · rw [if_neg hkey2]
          have hnc : isNoCacheDir ((consumeCacheControlDirective c).1,
              (consumeCacheControlDirective c).2.1) = false := by
            simp [isNoCacheDir, hkey, hkey2]
          have hvm : validMaxAge ((consumeCacheControlDirective c).1,
              (consumeCacheControlDirective c).2.1) = none := by
            simp [validMaxAge, hkey]
          simp only [ih _ hrec, List.any_cons, hnc, Bool.false_or,
            List.filterMap_cons, hvm]

theorem maxAgeValueLoop_eq (sdate : Int) (c : GoStr) (m : Int) :
    maxAgeValueLoop sdate c m =
      if (ccDirectives c).any isNoCacheDir then Sum.inl sdate
      else Sum.inr (((ccDirectives c).filterMap validMaxAge).foldl min m) :=
  maxAgeValueLoop_eq_aux sdate c.length c (le_refl _) m

theorem maxAgeValuesLoop_eq (sdate : Int) (cc : List GoStr) (m : Int) :
    maxAgeValuesLoop sdate cc m =
      if ((cc.map ccDirectives).flatten).any isNoCacheDir then Sum.inl sdate
      else Sum.inr ((((cc.map ccDirectives).flatten).filterMap validMaxAge).foldl min m) := by
  induction cc generalizing m with
  | nil => simp [maxAgeValuesLoop]
  | cons c cs ihc =>
    simp only [maxAgeValuesLoop, maxAgeValueLoop_eq]
    by_cases hany : (ccDirectives c).any isNoCacheDir
    · rw [if_pos hany]
      simp [hany]
    · rw [if_neg hany]
      simp only [ihc, List.map_cons, List.flatten_cons, List.any_append,
        List.filterMap_append, List.foldl_append]
      rw [Bool.eq_false_iff.mpr hany]
      simp only [Bool.false_or]

theorem maxAge_eq_specMaxAge (parseTime : GoStr → Option Int) (h : HttpHeader) (now : Int) :
    maxAge parseTime h now = specMaxAge parseTime h now := by
  unfold maxAge specMaxAge
  cases hcc : h.cacheControl with
  | nil => rfl
  | cons c cs =>
    simp only [maxAgeValuesLoop_eq]
    by_cases hany : (((c :: cs).map ccDirectives).flatten).any isNoCacheDir
    · rw [if_pos hany, if_pos hany]
    · rw [if_neg hany, if_neg hany]
      simp only [ne_eq]
      by_cases hmin : ((((c :: cs).map ccDirectives).flatten).filterMap validMaxAge).foldl
          min maxInt64 = maxInt64
      · rw [if_neg (not_not_intro hmin),
            if_neg (fun hc => (foldl_min_sentinel _).mpr hc hmin)]
      · rw [if_pos hmin, if_pos ((foldl_min_sentinel _).mp hmin)]

/-- C7 counterexample: `Cache-Control: No-Cache` as the last (and only)
directive is not case-folded by the tokenizer, so `maxAge` ignores it and
returns the zero time instead of the server date (`now = 5` here, with no
`Date` or `Expires` header). -/
theorem C7_maxAge_case_fold_counterexample :
    maxAge (fun _ => none)
      { cacheControl := [str "No-Cache"], expires := [], date := [],
        etag := [], lastModified := [], contentType := [] } 5 = 0 ∧
    serverDate (fun _ => none)
      { cacheControl := [str "No-Cache"], expires := [], date := [],
        etag := [], lastModified := [], contentType := [] } 5 = 5 ∧ (0 : Int) ≠ 5 := by
  refine ⟨?_, by decide, by decide⟩
  rw [maxAge_eq_specMaxAge]
  have h1 : ccDirectives (str "No-Cache") = [(str "No-Cache", [])] := by
    rw [ccDirectives]
    rw [dif_neg (by decide)]
    have h2 : consumeCacheControlDirective (str "No-Cache") = (str "No-Cache", [], []) := by
      decide
    rw [h2]
    rw [ccDirectives]
    simp
  simp [specMaxAge, h1, isNoCacheDir, validMaxAge, expiresFallback]
  decide

/-- C7 (amended): for every response and caller `now`, `maxAge` equals the
spec's rule list over the tokenised directives — MaxAge is the server date if
any directive is `no-cache` or parses as `max-age=0`; else, if some usable
`max-age` value is strictly below `2^63 - 1`, the server date plus the
minimum usable `max-age` in wrapping 64-bit nanoseconds (a usable value of
exactly `2^63 - 1` on its own is treated as absent by the code's `MaxInt64`
sentinel); else the `Expires` value; else zero — with directive names
case-folded only when the directive is followed by `=` or `,` (a trailing
directive is matched case-sensitively after whitespace trimming). -/
theorem C7_maxAge_rules (parseTime : GoStr → Option Int) (h : HttpHeader) (now : Int) :
    maxAge parseTime h now = specMaxAge parseTime h now :=
  maxAge_eq_specMaxAge parseTime h now

/-- The HTTP response data `parseResponse` inspects: status code, headers and
body.  `bodyReadErr` models an `io.Reader` failure while reading the body. -/
structure HttpResponse where
  statusCode : Int
  header : HttpHeader
  body : List Nat
  bodyReadErr : Bool
deriving DecidableEq, Repr

/-- Error kinds surfaced by the Fetcher (fetch.go). -/
inductive FetchError where
  | certExpired
  | noContentType
  | badHTTPStatus (code : Int)
  | badContentType (value : GoStr)
  | mimeParseErr
  | bodyReadErr
  | ocspParseErr
  | transport
deriving DecidableEq, Repr

deriving instance DecidableEq for Except

/-- `parseResponse` (fetch.go lines 124-158).  `mimeParse` stands for
`mime.ParseMediaType` (media type plus parameters, `none` on error), and
`ocspParse` for `ocsp.ParseResponse` against the issuer.  A 304 yields
`Except.ok none`; a parsed 200 yields the assembled `Response`. -/
def parseResponse (mimeParse : GoStr → Option (GoStr × List (GoStr × GoStr)))
    (ocspParse : List Nat → Certificate → Option OcspResponse)
    (parseTime : GoStr → Option Int)
    (r : HttpResponse) (issuer : Certificate) (now : Int) :
    Except FetchError (Option Response) :=
  if r.statusCode = 304 then Except.ok none
  else if r.statusCode ≠ 200 then Except.error (FetchError.badHTTPStatus r.statusCode)
  else
    match r.header.contentType with
    | [] => Except.error FetchError.noContentType
    | ct0 =>
      match mimeParse ct0 with
      | none => Except.error FetchError.mimeParseErr
      | some ctp =>
        if ctp.1 ≠ str "application/ocsp-response" ∨ 0 < ctp.2.length then
          Except.error (FetchError.badContentType r.header.contentType)
        else if r.bodyReadErr then Except.error FetchError.bodyReadErr
        else
          match ocspParse (r.body.take (1024 * 1024)) issuer with
          | none => Except.error FetchError.ocspParseErr
          | some od =>
            Except.ok (some
              { ocspResponse := some od,
                rawOCSPResponse := r.body.take (1024 * 1024),
                maxAge := maxAge parseTime r.header now,
                etag := r.header.etag,
                lastModified := lastModified parseTime r.header })

/-- The outgoing HTTP request built by `createHTTPRequest`, with the header
fields the Fetcher sets.  `ifModifiedSince` carries the formatted time as the
instant itself. -/
structure HttpRequest where
  method : GoStr
  url : GoStr
  ifNoneMatch : GoStr
  ifModifiedSince : Option Int
  cacheControl : GoStr
  contentType : GoStr
  body : Option (List Nat)
deriving DecidableEq, Repr

/-- `(*Request).createHTTPRequest` (fetch.go lines 95-113): GET with at most
one conditional header (`If-None-Match` preferred), or POST with the DER body
and `Content-Type: application/ocsp-request`. -/
def createHTTPRequest (r : Request) (etag : GoStr) (lastMod : Int) : HttpRequest :=
  match r.body with
  | none =>
    { method := str "GET", url := r.url,
      ifNoneMatch := if etag ≠ [] then etag else [],
      ifModifiedSince := if etag ≠ [] then none else if lastMod ≠ 0 then some lastMod else none,
      cacheControl := [], contentType := [], body := none }
  | some b =>
    { method := str "POST", url := r.url, ifNoneMatch := [], ifModifiedSince := none,
      cacheControl := [], contentType := str "application/ocsp-request", body := some b }

/-- The `nextUpdate` local after `if resp != nil { nextUpdate =
resp.OCSPResponse.NextUpdate }` in `Fetch`; `parseResponse` always sets
`OCSPResponse`, so the `getD 0` default is never exercised by `Fetch`. -/
def effectiveNextUpdate (resp : Option Response) (nextUpdate : Int) : Int :=
  match resp with
  | some rr => (rr.ocspResponse.map (fun o => o.nextUpdate)).getD 0
  | none => nextUpdate

/-- `(*Fetcher).Fetch` (fetch.go lines 314-351).  `client` stands for
`f.client().Do` (`none` is a connection error); the stale-revalidation retry
re-issues the same request with `Cache-Control: no-cache` set. -/
def Fetch (mimeParse : GoStr → Option (GoStr × List (GoStr × GoStr)))
    (ocspParse : List Nat → Certificate → Option OcspResponse)
    (parseTime : GoStr → Option Int)
    (client : HttpRequest → Option HttpResponse)
    (req : Request) (etag : GoStr) (lastMod : Int) (nextUpdate : Int) (now : Int) :
    Except FetchError (Option Response) :=
  if now > req.notAfter then Except.error FetchError.certExpired
  else
    match client (createHTTPRequest req etag lastMod) with
    | none => Except.error FetchError.transport
    | some r =>
      match parseResponse mimeParse ocspParse parseTime r req.issuer now with
      | Except.error e => Except.error e
      | Except.ok resp =>
        if (createHTTPRequest req etag lastMod).method = str "GET" then
          if effectiveNextUpdate resp nextUpdate ≠ 0 ∧
             effectiveNextUpdate resp nextUpdate < now then
            match client { createHTTPRequest req etag lastMod with
                             cacheControl := str "no-cache" } with
            | none => Except.ok resp
            | some r2 => parseResponse mimeParse ocspParse parseTime r2 req.issuer now
          else Except.ok resp
        else Except.ok resp

/-- `(*Fetcher).FetchR` (fetch.go lines 302-312): derive the conditional
validators and previous `NextUpdate` from the previous response. -/
def FetchR (mimeParse : GoStr → Option (GoStr × List (GoStr × GoStr)))
    (ocspParse : List Nat → Certificate → Option OcspResponse)
    (parseTime : GoStr → Option Int)
    (client : HttpRequest → Option HttpResponse)
    (req : Request) (prev : Option Response) (now : Int) :
    Except FetchError (Option Response) :=
  Fetch mimeParse ocspParse parseTime client req
    (match prev with | some p => p.etag | none => [])
    (match prev with | some p => p.lastModified | none => 0)
    (match prev with
     | some p => match p.ocspResponse with | some o => o.nextUpdate | none => 0
     | none => 0)
    now

/-- A mime parser accepting exactly `application/ocsp-response` with no
parameters, used for concrete instantiations. -/
def exMimeParse (s : GoStr) : Option (GoStr × List (GoStr × GoStr)) :=
  if s = str "application/ocsp-response" then some (s, []) else none

/-- An OCSP parser accepting exactly the body `[1]`, used for concrete
instantiations. -/
def exOcspParse (bs : List Nat) (_ : Certificate) : Option OcspResponse :=
  if bs = [1] then some { thisUpdate := 0, nextUpdate := 5 } else none

/-- A header carrying only the OCSP content type. -/
def exOcspHeader : HttpHeader :=
  { cacheControl := [], expires := [], date := [], etag := [], lastModified := [],
    contentType := str "application/ocsp-response" }

/-- A 200 response whose body parses to an OCSP response with `NextUpdate = 5`. -/
def exStale200 : HttpResponse :=
  { statusCode := 200, header := exOcspHeader, body := [1], bodyReadErr := false }

/-- A 500 response, used as the outcome of the stale-revalidation retry. -/
def exRetry500 : HttpResponse :=
  { statusCode := 500, header := exOcspHeader, body := [], bodyReadErr := false }

/-- A client answering 200-stale on the plain request and 500 on the
`Cache-Control: no-cache` retry. -/
def exStaleClient (h : HttpRequest) : Option HttpResponse :=
  if h.cacheControl = str "no-cache" then some exRetry500 else some exStale200

/-- The response assembled from `exStale200` at `now = 10`. -/
def exStaleResponse : Response :=
  { ocspResponse := some { thisUpdate := 0, nextUpdate := 5 }, rawOCSPResponse := [1],
    maxAge := 0, etag := [], lastModified := 0 }

/-- C2 counterexample: a GET fetch whose first exchange yields a stale parsed
response retries with `Cache-Control: no-cache`; the retry CONNECTS but fails
to parse (HTTP 500), and `Fetch` returns the retry's error rather than the
first (stale) response with a nil error as the claim states. -/
theorem C2_retry_parse_failure_counterexample :
    parseResponse exMimeParse exOcspParse (fun _ => none) exStale200 exCert 10
      = Except.ok (some exStaleResponse) ∧
    Fetch exMimeParse exOcspParse (fun _ => none) exStaleClient exReq [] 0 0 10
      = Except.error (FetchError.badHTTPStatus 500) ∧
    (Except.error (FetchError.badHTTPStatus 500) :
        Except FetchError (Option Response))
      ≠ Except.ok (some exStaleResponse) := by
  refine ⟨by decide, by decide, by decide⟩

/-- C2 (amended): on a GET whose first exchange connects and parses, a
non-zero effective `NextUpdate` (the parsed response's, or the caller's
`previousNextUpdate` on a 304) lying before `now` triggers exactly one retry
of the same request with `Cache-Control: no-cache`; a retry CONNECTION
failure returns the first response with a nil error, while any other retry
outcome — including a parse failure — is returned as is.  A POST fetch never
retries. -/
theorem C2_stale_revalidation_retry
    (mimeParse : GoStr → Option (GoStr × List (GoStr × GoStr)))
    (ocspParse : List Nat → Certificate → Option OcspResponse)
    (parseTime : GoStr → Option Int)
    (client : HttpRequest → Option HttpResponse)
    (req : Request) (etag : GoStr) (lastMod : Int) (nu : Int) (now : Int)
    (r : HttpResponse) (resp : Option Response)
    (hget : req.body = none)
    (hnotexp : ¬ now > req.notAfter)
    (hconn : client (createHTTPRequest req etag lastMod) = some r)
    (hparse : parseResponse mimeParse ocspParse parseTime r req.issuer now
        = Except.ok resp)
    (hstale : effectiveNextUpdate resp nu ≠ 0 ∧ effectiveNextUpdate resp nu < now) :
    (Fetch mimeParse ocspParse parseTime client req etag lastMod nu now =
      match client { createHTTPRequest req etag lastMod with
                       cacheControl := str "no-cache" } with
      | none => Except.ok resp
      | some r2 => parseResponse mimeParse ocspParse parseTime r2 req.issuer now) ∧
    (∀ (req2 : Request) (b : List Nat), req2.body = some b →
      ¬ now > req2.notAfter →
      Fetch mimeParse ocspParse parseTime client req2 etag lastMod nu now =
        match client (createHTTPRequest req2 etag lastMod) with
        | none => Except.error FetchError.transport
        | some r0 =>
          match parseResponse mimeParse ocspParse parseTime r0 req2.issuer now with
          | Except.error e => Except.error e
          | Except.ok resp0 => Except.ok resp0) := by
  constructor
  · unfold Fetch
    rw [if_neg hnotexp, hconn]
    simp only [hparse]
    have hmethod : (createHTTPRequest req etag lastMod).method = str "GET" := by
      rw [createHTTPRequest, hget]
    rw [if_pos hmethod, if_pos hstale]
  · intro req2 b hbody hnotexp2
    unfold Fetch
    rw [if_neg hnotexp2]
    have hmethod : (createHTTPRequest req2 etag lastMod).method = str "POST" := by
      rw [createHTTPRequest, hbody]
    cases hcl : client (createHTTPRequest req2 etag lastMod) with
    | none => rfl
    | some r0 =>
      simp only
      cases hp : parseResponse mimeParse ocspParse parseTime r0 req2.issuer now with
      | error e => rfl
      | ok resp0 =>
        simp only
        rw [if_neg (by rw [hmethod]; decide)]

theorem C2_stale_revalidation_retry_witness :
    (Fetch exMimeParse exOcspParse (fun _ => none) exStaleClient exReq [] 0 0 10 =
      match exStaleClient { createHTTPRequest exReq [] 0 with
                              cacheControl := str "no-cache" } with
      | none => Except.ok (some exStaleResponse)
      | some r2 => parseResponse exMimeParse exOcspParse (fun _ => none) r2 exReq.issuer 10) ∧
    (∀ (req2 : Request) (b : List Nat), req2.body = some b →
      ¬ (10 : Int) > req2.notAfter →
      Fetch exMimeParse exOcspParse (fun _ => none) exStaleClient req2 [] 0 0 10 =
        match exStaleClient (createHTTPRequest req2 [] 0) with
        | none => Except.error FetchError.transport
        | some r0 =>
          match parseResponse exMimeParse exOcspParse (fun _ => none) r0 req2.issuer 10 with
          | Except.error e => Except.error e
          | Except.ok resp0 => Except.ok resp0) :=
  C2_stale_revalidation_retry exMimeParse exOcspParse (fun _ => none) exStaleClient exReq
    [] 0 0 10 exStale200 (some exStaleResponse) rfl (by decide) (by decide) (by decide)
    (by decide)

/-- A previously stored response, used to instantiate the 304 scenarios. -/
def exPrevResponse : Response :=
  { ocspResponse := some { thisUpdate := 0, nextUpdate := 100 }, rawOCSPResponse := [2],
    maxAge := 0, etag := str "abc", lastModified := 0 }

/-- A due status holding a previous response (so a 304 can be answered). -/
def exStatus304 : OcspStatus :=
  { request := exReq, response := some exPrevResponse, nextUpdate := 5, tags := [str "a"] }

/-- C4 counterexample: a due status with a stored response receiving the
`(nil, nil)` outcome of a 304 is left with its `nextUpdate` UNCHANGED (still
`5`, still due) — the schedule does not move, contrary to the claim; no event
is emitted. -/
theorem C4_304_schedule_unchanged_counterexample :
    sweep nsHour (fun _ => none) 10 (fun _ => Except.ok none) [(0, exStatus304)]
      = some ([(0, exStatus304)], []) ∧ exStatus304.nextUpdate = 5 := by
  refine ⟨by decide, rfl⟩

/-- C4 (amended): a 304 Not Modified makes `parseResponse` — and hence
`Fetch` — return `(nil, nil)`; during the sweep a due status with a stored
response receiving that nil result is passed through `updateStatus`, which
leaves the status (in particular its `nextUpdate`) unchanged, and no event is
emitted; the sweep continues with the remaining statuses. -/
theorem C4_not_modified_silent
    (mimeParse : GoStr → Option (GoStr × List (GoStr × GoStr)))
    (ocspParse : List Nat → Certificate → Option OcspResponse)
    (parseTime : GoStr → Option Int)
    (hdr : HttpHeader) (body : List Nat) (brr : Bool) (issuer : Certificate)
    (tick : Int) (rand : Int → Option Int) (now : Int)
    (fetch : OcspStatus → FetchResult) (i : Nat) (req : Request) (pr : Response)
    (nu : Int) (tags : List GoStr) (rest : List (Nat × OcspStatus))
    (hdue : nu ≤ now)
    (h304 : fetch { request := req, response := some pr, nextUpdate := nu, tags := tags }
        = Except.ok none) :
    parseResponse mimeParse ocspParse parseTime
        { statusCode := 304, header := hdr, body := body, bodyReadErr := brr } issuer now
      = Except.ok none ∧
    sweep tick rand now fetch
        ((i, { request := req, response := some pr, nextUpdate := nu, tags := tags }) :: rest)
      = (sweep tick rand now fetch rest).map
          (fun p => ((i, { request := req, response := some pr, nextUpdate := nu,
                           tags := tags }) :: p.1, p.2)) := by
  constructor
  · rfl
  · simp only [sweep]
    rw [if_neg (not_lt.mpr hdue), h304]
    have hupd : updateStatus tick rand now
        { request := req, response := some pr, nextUpdate := nu, tags := tags } none
        = some { request := req, response := some pr, nextUpdate := nu, tags := tags } := by
      simp [updateStatus]
    simp [hupd]

theorem C4_not_modified_silent_witness :
    parseResponse exMimeParse exOcspParse (fun _ => none)
        { statusCode := 304, header := exOcspHeader, body := [], bodyReadErr := false }
        exCert 10
      = Except.ok none ∧
    sweep nsHour (fun _ => none) 10 (fun _ => Except.ok none)
        ((0, { request := exReq, response := some exPrevResponse, nextUpdate := 5,
               tags := [str "a"] }) :: [])
      = (sweep nsHour (fun _ => none) 10 (fun _ => Except.ok none) []).map
          (fun p => ((0, { request := exReq, response := some exPrevResponse, nextUpdate := 5,
                           tags := [str "a"] }) :: p.1, p.2)) :=
  C4_not_modified_silent exMimeParse exOcspParse (fun _ => none) exOcspHeader [] false exCert
    nsHour (fun _ => none) 10 (fun _ => Except.ok none) 0 exReq exPrevResponse 5 [str "a"] []
    (by decide) rfl

/-- Outcome of `ResponderURL`: a runtime panic (out-of-range slice), an error,
or a URL. -/
inductive URLResult where
  | panics
  | failure (msg : GoStr)
  | ok (url : GoStr)
deriving DecidableEq, Repr

/-- The loop of `ResponderURL` (update.go lines 57-68, identical in
part_002): each entry is sliced as `ocspServer[0:7]` and — when the first
comparison fails — `ocspServer[0:8]` BEFORE any length check, so a too-short
entry panics.  `urlParseOk` stands for `url.Parse` succeeding (its error is
returned otherwise). -/
def responderURLLoop (urlParseOk : GoStr → Bool) : List GoStr → URLResult
  | [] => URLResult.failure (str "Cannot find an OCSP URL")
  | s :: rest =>
    if s.length < 7 then URLResult.panics
    else if goEqualFold (s.take 7) (str "http://") then
      if urlParseOk s then URLResult.ok s else URLResult.failure (str "url parse error")
    else if s.length < 8 then URLResult.panics
    else if goEqualFold (s.take 8) (str "https://") then
      if urlParseOk s then URLResult.ok s else URLResult.failure (str "url parse error")
    else responderURLLoop urlParseOk rest

/-- `ResponderURL` extracts the OCSP responder URL from a certificate's
OCSP-server entries. -/
def ResponderURL (urlParseOk : GoStr → Bool) (cert : Certificate) : URLResult :=
  responderURLLoop urlParseOk cert.ocspServer

/-- The responder-URL resolution prologue of `CreateRequest` (fetch.go lines
50-61): an empty argument is looked up on the leaf certificate; an error
returns IMMEDIATELY (so the issuer fallback on the next line is reachable
only for an empty successful result, which `ResponderURL` never produces). -/
def resolveResponderURL (urlParseOk : GoStr → Bool) (cert issuer : Certificate)
    (responderURL0 : GoStr) : URLResult :=
  if responderURL0 = [] then
    match ResponderURL urlParseOk cert with
    | URLResult.panics => URLResult.panics
    | URLResult.failure e => URLResult.failure e
    | URLResult.ok u => if u = [] then ResponderURL urlParseOk issuer else URLResult.ok u
  else URLResult.ok responderURL0

/-- The standard base64 alphabet (`encoding/base64.StdEncoding`). -/
def base64Chars : GoStr := str "ABCDEFGHIJKLMNOPQRSTUVWXYZabcdefghijklmnopqrstuvwxyz0123456789+/"

/-- `base64.StdEncoding.EncodeToString` over bytes (each `< 256`). -/
def base64Encode : List Nat → GoStr
  | [] => []
  | [a] => [base64Chars.getD (a / 4) 'A', base64Chars.getD (a % 4 * 16) 'A', '=', '=']
  | [a, b] => [base64Chars.getD (a / 4) 'A', base64Chars.getD (a % 4 * 16 + b / 16) 'A',
               base64Chars.getD (b % 16 * 4) 'A', '=']
  | a :: b :: c :: rest =>
    base64Chars.getD (a / 4) 'A' :: base64Chars.getD (a % 4 * 16 + b / 16) 'A' ::
    base64Chars.getD (b % 16 * 4 + c / 64) 'A' :: base64Chars.getD (c % 64) 'A' ::
    base64Encode rest

/-- Upper-case hexadecimal digit. -/
def hexDigit (n : Nat) : Char := (str "0123456789ABCDEF").getD n '0'

/-- `url.QueryEscape` on one character: space becomes `+`, unreserved
characters stay, everything else is percent-encoded. -/
def queryEscapeChar (c : Char) : GoStr :=
  if c = ' ' then ['+']
  else if ('A' ≤ c ∧ c ≤ 'Z') ∨ ('a' ≤ c ∧ c ≤ 'z') ∨ ('0' ≤ c ∧ c ≤ '9') ∨
          c = '-' ∨ c = '_' ∨ c = '.' ∨ c = '~' then [c]
  else ['%', hexDigit (c.toNat / 16), hexDigit (c.toNat % 16)]

/-- `url.QueryEscape`. -/
def queryEscape (s : GoStr) : GoStr := (s.map queryEscapeChar).flatten

/-- `strings.Replace(s, "+", "%20", -1)`. -/
def plusToPct20 (s : GoStr) : GoStr :=
  (s.map (fun c => if c = '+' then str "%20" else [c])).flatten

/-- Outcome of `CreateRequest`. -/
inductive CreateReqResult where
  | panics
  | failure (msg : GoStr)
  | ok (req : Request)
deriving DecidableEq, Repr

/-- `CreateRequest` (fetch.go lines 49-93): resolve the responder URL, build
the DER request (`ocspCreateReq` stands for `ocsp.CreateRequest`), take the
earlier `NotAfter`, and prefer the GET form when the encoded URL fits in 255
bytes. -/
def CreateRequest (urlParseOk : GoStr → Bool)
    (ocspCreateReq : Certificate → Certificate → Option (List Nat))
    (cert issuer : Certificate) (responderURL0 : GoStr) : CreateReqResult :=
  match resolveResponderURL urlParseOk cert issuer responderURL0 with
  | URLResult.panics => CreateReqResult.panics
  | URLResult.failure e => CreateReqResult.failure e
  | URLResult.ok responderURL =>
    match ocspCreateReq cert issuer with
    | none => CreateReqResult.failure (str "ocsp: error creating request")
    | some r =>
      if ((if responderURL.getLast? = some '/' then responderURL
           else responderURL ++ ['/'])
            ++ plusToPct20 (queryEscape (base64Encode r))).length ≤ 255 then
        CreateReqResult.ok
          { url := (if responderURL.getLast? = some '/' then responderURL
                    else responderURL ++ ['/'])
                     ++ plusToPct20 (queryEscape (base64Encode r)),
            body := none,
            notAfter := if issuer.notAfter < cert.notAfter then issuer.notAfter
                        else cert.notAfter,
            issuer := issuer }
      else
        CreateReqResult.ok
          { url := responderURL,
            body := some r,
            notAfter := if issuer.notAfter < cert.notAfter then issuer.notAfter
                        else cert.notAfter,
            issuer := issuer }

/-- An issuer certificate that does carry a usable OCSP URL. -/
def exIssuerWithURL : Certificate :=
  { ocspServer := [str "http://ocsp.example.com/"], notAfter := 900 }

/-- C5: the leaf certificate has no OCSP-server entry while the issuer has a
usable one, yet `CreateRequest` with an empty responder URL returns the
"Cannot find an OCSP URL" error without consulting the issuer: the
documented (and spec'd) issuer fallback is dead code because `ResponderURL`
never returns an empty URL without an error. -/
theorem C5_issuer_fallback_unreachable :
    ResponderURL (fun _ => true) exIssuerWithURL
      = URLResult.ok (str "http://ocsp.example.com/") ∧
    CreateRequest (fun _ => true) (fun _ _ => some [1, 2, 3]) exCert exIssuerWithURL []
      = CreateReqResult.failure (str "Cannot find an OCSP URL") := by
  refine ⟨by decide, by decide⟩

/-- C10 counterexample: the 7-byte entry `"http://"` is shorter than 8 bytes,
yet `ResponderURL` does not panic on it — the `ocspServer[0:8]` slice is
short-circuited away because `ocspServer[0:7]` matches `http://`. -/
theorem C10_seven_byte_entry_counterexample :
    (str "http://").length < 8 ∧
    ResponderURL (fun _ => true) { ocspServer := [str "http://"], notAfter := 0 }
      = URLResult.ok (str "http://") := by
  refine ⟨by decide, by decide⟩

/-- C10 (amended): the slices happen before any length check, so an entry
shorter than 7 bytes — or exactly 7 bytes long and not case-insensitively
`http://` — makes `ResponderURL` panic with a slice out of range when the
scan reaches it (stated here for the first entry). -/
theorem C10_short_entry_panics (urlParseOk : GoStr → Bool) (cert : Certificate)
    (e : GoStr) (rest : List GoStr)
    (hhead : cert.ocspServer = e :: rest)
    (hshort : e.length < 7 ∨
      (e.length = 7 ∧ goEqualFold e (str "http://") = false)) :
    ResponderURL urlParseOk cert = URLResult.panics := by
  unfold ResponderURL
  rw [hhead]
  rcases hshort with h1 | ⟨h1, h2⟩
  · unfold responderURLLoop
    rw [if_pos h1]
  · unfold responderURLLoop
    rw [if_neg (by omega)]
    have htake : e.take 7 = e := by
      rw [← h1]
      exact List.take_length e
    rw [htake, h2]
    simp only [Bool.false_eq_true, if_false]
    rw [if_pos (by omega)]

theorem C10_short_entry_panics_witness :
    ResponderURL (fun _ => true) { ocspServer := [str "x"], notAfter := 0 }
      = URLResult.panics :=
  C10_short_entry_panics (fun _ => true) { ocspServer := [str "x"], notAfter := 0 }
    (str "x") [] rfl (Or.inl (by decide))
